import Mathlib

set_option maxRecDepth 2000

/-!
Verification development for the pdf-to-html-service repository.

The definitions below are shallow embeddings of the Python source:
  * services/differ.py      : visual_diff and _load_image
  * services/extractor.py   : _extract_page_texts, _extract_page_images,
                              render_page_previews
  * services/previewer.py   : _make_asset_fetcher, html_to_png
  * utils/storage.py        : build_public_asset_url

Machine floats are modelled by exact rationals; Python round (banker's
rounding, ties to even) is modelled by pyRound.  External library behaviour
(PIL resampling, Gaussian-blur kernels, PyMuPDF page data, weasyprint) is
modelled by explicit parameters of the embedded functions, so that every claim
is settled for all possible behaviours of the library parts.
-/

namespace PdfToHtml

/-- Python `round(x)`: nearest integer, ties to even (banker's rounding). -/
def pyRound (q : ℚ) : ℤ :=
  if q - ⌊q⌋ < 1/2 then ⌊q⌋
  else if (1:ℚ)/2 < q - ⌊q⌋ then ⌊q⌋ + 1
  else if ⌊q⌋ % 2 = 0 then ⌊q⌋ else ⌊q⌋ + 1

/-- Python `round(x, d)`: round to `d` decimal digits, ties to even. -/
def roundTo (d : ℕ) (q : ℚ) : ℚ := (pyRound (q * 10 ^ d) : ℚ) / 10 ^ d

/-- `round(x, 4)` as used for diff scores and cell percentages. -/
def round4 : ℚ → ℚ := roundTo 4

/-- `round(x, 2)` as used for extracted bounding boxes and font sizes. -/
def round2 : ℚ → ℚ := roundTo 2

theorem pyRound_intCast (n : ℤ) : pyRound (n : ℚ) = n := by
  simp [pyRound]

theorem floor_le_pyRound (q : ℚ) : ⌊q⌋ ≤ pyRound q := by
  unfold pyRound
  split
  · exact le_refl _
  · split
    · exact le_of_lt (lt_add_one _)
    · split
      · exact le_refl _
      · exact le_of_lt (lt_add_one _)

theorem pyRound_le_floor_add_one (q : ℚ) : pyRound q ≤ ⌊q⌋ + 1 := by
  unfold pyRound
  split
  · exact le_of_lt (lt_add_one _)
  · split
    · exact le_refl _
    · split
      · exact le_of_lt (lt_add_one _)
      · exact le_refl _

theorem pyRound_nonneg (q : ℚ) (h : 0 ≤ q) : 0 ≤ pyRound q :=
  le_trans (Int.le_floor.mpr (by exact_mod_cast h)) (floor_le_pyRound q)

theorem pyRound_le_of_le (q : ℚ) (n : ℤ) (h : q ≤ n) : pyRound q ≤ n := by
  rcases lt_or_eq_of_le h with h' | h'
  · have hf : ⌊q⌋ + 1 ≤ n := by
      have : ⌊q⌋ < n := Int.floor_lt.mpr h'
      omega
    exact le_trans (pyRound_le_floor_add_one q) hf
  · rw [h', pyRound_intCast]

/-- An RGB pixel with the three 0–255 channels of a PIL `RGB` image. -/
structure RGB where
  r : ℕ
  g : ℕ
  b : ℕ
deriving DecidableEq

/-- The white background pixel used for bottom padding. -/
def white : RGB := ⟨255, 255, 255⟩

/-- A raster image after `convert('RGB')`: dimensions plus pixel access. -/
structure Image where
  width : ℕ
  height : ℕ
  px : ℕ → ℕ → RGB

theorem Image.ext_iff' {a b : Image} :
    a = b ↔ a.width = b.width ∧ a.height = b.height ∧ a.px = b.px := by
  constructor
  · intro h; subst h; exact ⟨rfl, rfl, rfl⟩
  · rcases a with ⟨w, h, p⟩
    rcases b with ⟨w', h', p'⟩
    intro ⟨h1, h2, h3⟩
    simp_all

/-- A pixel sampler standing for PIL `Image.resize(.., Image.LANCZOS)`:
given the source image and the target size it yields each target pixel.
The resampling arithmetic itself is external library code, so it is a
parameter of the embedding. -/
def Sampler : Type := Image → ℕ → ℕ → ℕ → ℕ → RGB

/-- `img.resize((w, h), Image.LANCZOS)`: the result has exactly the requested
size, with pixel contents produced by the resampling filter. -/
def resize (sample : Sampler) (img : Image) (w h : ℕ) : Image :=
  ⟨w, h, fun x y => sample img w h x y⟩

/-- The proportionally scaled height `round(h * target_w / w)` from
`visual_diff`'s width-normalization step. -/
def scaledHeight (h w targetW : ℕ) : ℕ :=
  (pyRound ((h * targetW : ℚ) / w)).toNat

/-- Width-normalization step of `visual_diff` for one image:
`if w != target_w: img = img.resize((target_w, round(h * target_w / w)), LANCZOS)`. -/
def normalizeWidth (sample : Sampler) (img : Image) (targetW : ℕ) : Image :=
  if img.width ≠ targetW then
    resize sample img targetW (scaledHeight img.height img.width targetW)
  else img

/-- Height-equalization step of `visual_diff` for one image: if the image is
shorter than `target_h`, paste it at `(0, 0)` onto a white
`(target_w, target_h)` canvas. -/
def padToHeight (img : Image) (targetW targetH : ℕ) : Image :=
  if img.height < targetH then
    ⟨targetW, targetH, fun x y =>
      if x < img.width ∧ y < img.height then img.px x y else white⟩
  else img

/-- Per-channel absolute difference, `ImageChops.difference`. -/
def chanDiff (x y : ℕ) : ℕ := max x y - min x y

/-- `ImageChops.difference(img_a, img_b)` on same-sized images. -/
def difference (a b : Image) : Image :=
  ⟨a.width, a.height, fun x y =>
    ⟨chanDiff (a.px x y).r (b.px x y).r,
     chanDiff (a.px x y).g (b.px x y).g,
     chanDiff (a.px x y).b (b.px x y).b⟩⟩

/-- A blur kernel: finitely many `(dx, dy, weight)` taps.  PIL's
`GaussianBlur(radius=1)` is external library code, so the kernel is a
parameter of the embedding. -/
abbrev Kernel : Type := List (ℤ × ℤ × ℚ)

/-- Clamp an integer coordinate into `[0, n-1]` (edge extension). -/
def clampCoord (n : ℕ) (i : ℤ) : ℕ := (min (max 0 i) (n - 1 : ℤ)).toNat

/-- One blurred channel at `(x, y)`: the kernel-weighted sum of the channel
around `(x, y)` with edges extended. -/
def blurChan (k : Kernel) (w h : ℕ) (chan : ℕ → ℕ → ℕ) (x y : ℕ) : ℚ :=
  (k.map (fun t =>
    t.2.2 * (chan (clampCoord w ((x : ℤ) + t.1)) (clampCoord h ((y : ℤ) + t.2.1)) : ℚ))).sum

/-- Maximum blurred channel value of the difference image at one pixel:
the quantity compared against the threshold 15. -/
def blurMaxChan (k : Kernel) (d : Image) (x y : ℕ) : ℚ :=
  max (blurChan k d.width d.height (fun x y => (d.px x y).r) x y)
    (max (blurChan k d.width d.height (fun x y => (d.px x y).g) x y)
      (blurChan k d.width d.height (fun x y => (d.px x y).b) x y))

/-- `max(r, g, b) > _THRESHOLD` for the blurred difference at one pixel. -/
def pixelDiffers (k : Kernel) (d : Image) (x y : ℕ) : Prop :=
  15 < blurMaxChan k d x y

instance (k : Kernel) (d : Image) (x y : ℕ) : Decidable (pixelDiffers k d x y) := by
  unfold pixelDiffers; infer_instance

/-- Number of differing pixels in the rectangle `[x0, x1) × [y0, y1)` of the
blurred difference image. -/
def countDiffIn (k : Kernel) (d : Image) (x0 y0 x1 y1 : ℕ) : ℕ :=
  ((Finset.Ico x0 x1 ×ˢ Finset.Ico y0 y1).filter
    (fun p => pixelDiffers k d p.1 p.2)).card

/-- One reported grid cell of the diff result. -/
structure DiffCell where
  row : ℕ
  col : ℕ
  diff_pct : ℚ
deriving DecidableEq

/-- The dictionary returned by `visual_diff`. -/
structure DiffResult where
  score : ℚ
  width : ℕ
  height : ℕ
  diffs : List DiffCell
deriving DecidableEq

/-- The crop box `(x0, y0, x1, y1)` of grid cell `(row, col)` in
`visual_diff`, given the per-cell sizes `cell_w` and `cell_h`. -/
def cellBox (w h cw ch row col : ℕ) : ℕ × ℕ × ℕ × ℕ :=
  (col * cw, row * ch, min ((col + 1) * cw) w, min ((row + 1) * ch) h)

/-- `cell_total = len(cell_data)`: the number of pixels of the cropped cell.
(PIL's crop of an empty or inverted box is modelled as an empty pixel set,
via truncated subtraction.) -/
def cellTotal (w h cw ch row col : ℕ) : ℕ :=
  let box := cellBox w h cw ch row col
  (box.2.2.1 - box.1) * (box.2.2.2 - box.2.1)

/-- `cell_diff`: the number of differing pixels inside the cropped cell. -/
def cellCount (k : Kernel) (d : Image) (w h cw ch row col : ℕ) : ℕ :=
  let box := cellBox w h cw ch row col
  countDiffIn k d box.1 box.2.1 box.2.2.1 box.2.2.2

/-- The body of the inner grid loop of `visual_diff`: `none` when the cropped
cell is empty (the `continue`) or its rounded percentage is not above
`_CELL_MIN_PCT`; otherwise the reported cell. -/
def cellReport (k : Kernel) (d : Image) (w h cw ch row col : ℕ) :
    Option DiffCell :=
  if cellTotal w h cw ch row col = 0 then none
  else
    let pct := round4 ((cellCount k d w h cw ch row col : ℚ) /
      (cellTotal w h cw ch row col : ℕ))
    if 1/100 < pct then some ⟨row, col, pct⟩ else none

/-- Membership of the pixel `(x, y)` in the cropped cell `(row, col)`. -/
def inCellBox (w h cw ch row col x y : ℕ) : Prop :=
  col * cw ≤ x ∧ x < min ((col + 1) * cw) w ∧
    row * ch ≤ y ∧ y < min ((row + 1) * ch) h

/-- The 8×8 grid scan of `visual_diff`, in row-major order. -/
def gridDiffs (k : Kernel) (d : Image) (w h : ℕ) : List DiffCell :=
  let cw := max 1 (w / 8)
  let ch := max 1 (h / 8)
  (List.range 8).flatMap (fun row =>
    (List.range 8).filterMap (fun col => cellReport k d w h cw ch row col))

/-- The width-and-height normalization of `visual_diff`: both images are
brought to the minimum width (LANCZOS downscale) and then to the maximum
post-scaling height (bottom padding on a white canvas). -/
def normalizePair (sample : Sampler) (a b : Image) : Image × Image :=
  let targetW := min a.width b.width
  let a1 := normalizeWidth sample a targetW
  let b1 := normalizeWidth sample b targetW
  let targetH := max a1.height b1.height
  (padToHeight a1 targetW targetH, padToHeight b1 targetW targetH)

/-- `target_w = min(w_a, w_b)`. -/
def targetWidth (a b : Image) : ℕ := min a.width b.width

/-- `target_h = max(h_a2, h_b2)`: the maximum height after width
normalization. -/
def targetHeight (sample : Sampler) (a b : Image) : ℕ :=
  max (normalizeWidth sample a (targetWidth a b)).height
    (normalizeWidth sample b (targetWidth a b)).height

/-- The difference image of the two normalized canvases
(`diff = ImageChops.difference(img_a, img_b)`). -/
def diffCanvas (sample : Sampler) (a b : Image) : Image :=
  difference (normalizePair sample a b).1 (normalizePair sample a b).2

/-- `visual_diff(url_a, url_b)` after both images are loaded and converted to
RGB: normalization, blurred difference, global score and 8×8 grid report.
`sample` stands for the LANCZOS resampling filter and `k` for the
`GaussianBlur(radius=1)` kernel, both external PIL code. -/
def visual_diff (sample : Sampler) (k : Kernel) (img_a img_b : Image) :
    DiffResult :=
  let w := targetWidth img_a img_b
  let h := targetHeight sample img_a img_b
  let d := diffCanvas sample img_a img_b
  let total_px := w * h
  let diff_count := countDiffIn k d 0 0 w h
  let score := if total_px ≠ 0 then round4 (1 - (diff_count : ℚ) / total_px) else 1
  { score := score
    width := w
    height := h
    diffs := gridDiffs k d w h }

/-! ### String helpers modelling the Python library calls used for URLs -/

/-- Python `s.rstrip('/')`. -/
def rstripSlash (s : String) : String :=
  String.mk ((s.data.reverse.dropWhile (fun c => c = '/')).reverse)

/-- Whether `needle` occurs as a contiguous run inside the character list,
modelling Python's `in` on strings. -/
def hasSubstr (needle : List Char) : List Char → Bool
  | [] => needle.isEmpty
  | c :: rest => needle.isPrefixOf (c :: rest) || hasSubstr needle rest

/-- Python `needle in s` for strings. -/
def containsStr (needle s : String) : Bool := hasSubstr needle.data s.data

/-- Python `s.startswith(pre)`. -/
def pyStartsWith (s pre : String) : Bool := pre.data.isPrefixOf s.data

/-- Python `s.endswith(suf)`. -/
def pyEndsWith (s suf : String) : Bool := suf.data.isSuffixOf s.data

/-- Python `s.lower()` (ASCII). -/
def pyLower (s : String) : String := String.mk (s.data.map Char.toLower)

/-- Everything after the first occurrence of the character `sep`, or `[]`
when `sep` does not occur: the `[1]` part of Python `s.split(sep, 1)`. -/
def afterFirstChar (sep : Char) : List Char → List Char
  | [] => []
  | c :: rest => if c = sep then rest else afterFirstChar sep rest

/-- Everything before the first occurrence of the character `sep`: the `[0]`
part of Python `s.split(sep, 1)`. -/
def beforeFirstChar (sep : Char) : List Char → List Char
  | [] => []
  | c :: rest => if c = sep then [] else c :: beforeFirstChar sep rest

/-- Whether the character `sep` occurs in the list. -/
def hasChar (sep : Char) (l : List Char) : Bool := l.any (fun c => c = sep)

/-- Python `s.split(sep)` for a one-character separator. -/
def splitOnChar (sep : Char) : List Char → List (List Char)
  | [] => [[]]
  | c :: rest =>
    if c = sep then [] :: splitOnChar sep rest
    else
      match splitOnChar sep rest with
      | [] => [[c]]
      | x :: xs => (c :: x) :: xs

/-- `urllib.parse.urlparse(url).query`: the part after the first `?`, with
any fragment (after the first `#`) removed first. -/
def urlQuery (url : String) : String :=
  String.mk (afterFirstChar '?' (beforeFirstChar '#' url.data))

/-- Hexadecimal value of a hex digit character. -/
def hexVal (c : Char) : ℕ :=
  if '0' ≤ c ∧ c ≤ '9' then c.toNat - 48
  else if 'a' ≤ c ∧ c ≤ 'f' then c.toNat - 87
  else if 'A' ≤ c ∧ c ≤ 'F' then c.toNat - 55
  else 0

/-- Whether a character is an ASCII hex digit. -/
def isHexDigitChar (c : Char) : Bool :=
  ('0' ≤ c ∧ c ≤ '9') ∨ ('a' ≤ c ∧ c ≤ 'f') ∨ ('A' ≤ c ∧ c ≤ 'F')

/-- `urllib.parse.unquote_plus` on ASCII data: `+` becomes a space and
`%XY` hex escapes are decoded; malformed escapes are left untouched.
(Multi-byte UTF-8 escape sequences are modelled byte-by-byte.) -/
def unquotePlusList : List Char → List Char
  | [] => []
  | '+' :: rest => ' ' :: unquotePlusList rest
  | '%' :: a :: b :: rest =>
    if isHexDigitChar a ∧ isHexDigitChar b then
      Char.ofNat (16 * hexVal a + hexVal b) :: unquotePlusList rest
    else '%' :: unquotePlusList (a :: b :: rest)
  | c :: rest => c :: unquotePlusList rest

/-- `unquote_plus` on strings. -/
def unquotePlus (s : String) : String := String.mk (unquotePlusList s.data)

/-- `urllib.parse.parse_qs(query)` with default options: split on `&`,
split each field at the first `=`, drop fields without `=` and fields with
an empty value, and percent-decode names and values. -/
def parse_qs (query : String) : List (String × String) :=
  (splitOnChar '&' query.data).filterMap (fun field =>
    if ¬ hasChar '=' field then none
    else
      let value := afterFirstChar '=' field
      if value = [] then none
      else some (unquotePlus (String.mk (beforeFirstChar '=' field)),
        unquotePlus (String.mk value)))

/-- `(qs.get(key) or [''])[0]`: the first value listed for `key`, or `""`. -/
def firstQueryParam (query key : String) : String :=
  match (parse_qs query).filter (fun p => p.1 = key) with
  | [] => ""
  | p :: _ => p.2

/-- `os.path.basename` for POSIX paths: the part after the last `/`. -/
def basename (p : String) : String :=
  String.mk ((splitOnChar '/' p.data).getLastD [])

/-- `os.path.join` of two POSIX path components. -/
def pathJoin (a b : String) : String :=
  if pyStartsWith b "/" then b
  else if a = "" then b
  else if pyEndsWith a "/" then a ++ b
  else a ++ "/" ++ b

/-- `utils.storage.OUTPUT_FOLDER`. -/
def OUTPUT_FOLDER : String := "/tmp/outputs"

/-- An ASCII-safe character for `urllib.parse.quote_plus` with `safe=''`. -/
def isUrlSafe (c : Char) : Bool :=
  c.isAlphanum || c = '_' || c = '.' || c = '-' || c = '~'

/-- Uppercase hexadecimal digit. -/
def hexDigitUpper (n : ℕ) : Char :=
  if n < 10 then Char.ofNat (48 + n) else Char.ofNat (55 + n)

/-- `urllib.parse.quote_plus`: spaces become `+`, unsafe characters become
percent-encoded UTF-8 bytes. -/
def quotePlus (s : String) : String :=
  String.mk (s.data.flatMap (fun c =>
    if isUrlSafe c then [c]
    else if c = ' ' then ['+']
    else (String.utf8EncodeChar c).flatMap (fun byte =>
      ['%', hexDigitUpper (byte.toNat / 16), hexDigitUpper (byte.toNat % 16)])))

/-- `utils.storage.build_public_asset_url(public_base_url, process_id,
asset_path)`: `f"{public_base_url}/assets?{urlencode(...)}"` with the two
query parameters in dictionary order. -/
def build_public_asset_url (public_base_url process_id asset_path : String) :
    String :=
  public_base_url ++ "/assets?process_id=" ++ quotePlus process_id ++
    "&asset_path=" ++ quotePlus asset_path

/-! ### Asset resolution: differ._load_image and previewer fetcher -/

/-- Where a URL's bytes are read from. -/
inductive FetchSource where
  | dataUri (payload : String)
  | disk (path : String)
  | network (url : String)
deriving DecidableEq

/-- The local file path checked by both asset resolvers:
`os.path.join(OUTPUT_FOLDER, pid, os.path.basename(apath))`. -/
def assetFilePath (pid apath : String) : String :=
  pathJoin (pathJoin OUTPUT_FOLDER pid) (basename apath)

/-- `differ._load_image(source, public_base_url)` reduced to its routing
decision: data URI, direct disk read, or network fetch.  `isFile` models
`os.path.isfile` over the local storage state.  (For a `data:` source the
code indexes `source.split(',', 1)[1]`, presuming a comma.) -/
def load_image (isFile : String → Bool) (source public_base_url : String) :
    FetchSource :=
  if pyStartsWith source "data:" then
    .dataUri (String.mk (afterFirstChar ',' source.data))
  else
    let base := rstripSlash public_base_url
    if (base ≠ "" ∧ pyStartsWith source (base ++ "/assets")) ∨
        containsStr "/assets?" source then
      let pid := firstQueryParam (urlQuery source) "process_id"
      let apath := firstQueryParam (urlQuery source) "asset_path"
      if pid ≠ "" ∧ apath ≠ "" then
        if isFile (assetFilePath pid apath) then .disk (assetFilePath pid apath)
        else .network source
      else .network source
    else .network source

/-- The `url_fetcher` built by `previewer._make_asset_fetcher(public_base_url)`
reduced to its routing decision; the fallback is weasyprint's default
network fetcher. -/
def asset_fetcher (isFile : String → Bool) (public_base_url url : String) :
    FetchSource :=
  let base := rstripSlash public_base_url
  if pyStartsWith url (base ++ "/assets") || containsStr "/assets?" url then
    let pid := firstQueryParam (urlQuery url) "process_id"
    let apath := firstQueryParam (urlQuery url) "asset_path"
    if pid ≠ "" ∧ apath ≠ "" then
      if isFile (assetFilePath pid apath) then .disk (assetFilePath pid apath)
      else .network url
    else .network url
  else .network url

/-! ### Extractor: services/extractor.py -/

/-- A fitz rectangle / bbox tuple `(x0, y0, x1, y1)`. -/
structure Rect where
  x0 : ℚ
  y0 : ℚ
  x1 : ℚ
  y1 : ℚ
deriving DecidableEq

/-- A text span of `page.get_text('dict')`, with the dictionary defaults of
the source already applied (`text` defaults to `''`, `bbox` to
`(0, 0, 0, 0)`, `size` to `0`, `font` to `''`, `color` to `0`). -/
structure Span where
  text : String
  bbox : Rect
  size : ℚ
  font : String
  color : ℕ
deriving DecidableEq

/-- A line of a text block: its list of spans. -/
structure Line where
  spans : List Span
deriving DecidableEq

/-- A layout block: its `type` tag (0 = text) and its lines. -/
structure Block where
  type : ℕ
  lines : List Line
deriving DecidableEq

/-- Python whitespace for `str.strip()` (ASCII subset). -/
def isPyWs (c : Char) : Bool :=
  c = ' ' ∨ c = '\t' ∨ c = '\n' ∨ c = '\r' ∨ c.toNat = 11 ∨ c.toNat = 12

/-- Drop leading and trailing whitespace from a character list. -/
def stripList (l : List Char) : List Char :=
  ((l.dropWhile isPyWs).reverse.dropWhile isPyWs).reverse

/-- Python `s.strip()`. -/
def pyStrip (s : String) : String := String.mk (stripList s.data)

/-- Python `sep.join(parts)`. -/
def joinWith (sep : String) : List String → String
  | [] => ""
  | [x] => x
  | x :: xs => x ++ sep ++ joinWith sep xs

/-- The merged line content
`' '.join(p for p in parts if p.strip()).strip()`. -/
def lineContent (spans : List Span) : String :=
  pyStrip (joinWith " " ((spans.map Span.text).filter (fun p => pyStrip p ≠ "")))

/-- The default span used only for the `spans[0]` fallback. -/
def defaultSpan : Span := ⟨"", ⟨0, 0, 0, 0⟩, 0, "", 0⟩

/-- `next((s for s in spans if s.get('text', '').strip()), spans[0])`. -/
def primarySpan (spans : List Span) : Span :=
  match spans.find? (fun s => pyStrip s.text ≠ "") with
  | some s => s
  | none => spans.headD defaultSpan

/-- Lowercase hexadecimal digit. -/
def hexDigitLower (n : ℕ) : Char :=
  if n < 10 then Char.ofNat (48 + n) else Char.ofNat (87 + n)

/-- `'{:02x}'.format(n)` for a byte value. -/
def byteHex (n : ℕ) : String :=
  String.mk [hexDigitLower (n / 16 % 16), hexDigitLower (n % 16)]

/-- `'#{:02x}{:02x}{:02x}'.format((c >> 16) & 0xFF, (c >> 8) & 0xFF, c & 0xFF)`. -/
def color_guess_of (color : ℕ) : String :=
  "#" ++ byteHex (color / 65536 % 256) ++ byteHex (color / 256 % 256) ++
    byteHex (color % 256)

/-- A rounded output bounding box. -/
structure BBoxOut where
  x0 : ℚ
  y0 : ℚ
  x1 : ℚ
  y1 : ℚ
deriving DecidableEq

/-- One entry of the `texts` list produced by `_extract_page_texts`. -/
structure TextOut where
  content : String
  bbox : BBoxOut
  font_size : ℚ
  font : String
  color_guess : String
deriving DecidableEq

/-- Python `min()` of a nonempty list (0 on the never-used empty case). -/
def minList : List ℚ → ℚ
  | [] => 0
  | x :: xs => xs.foldl min x

/-- Python `max()` of a nonempty list (0 on the never-used empty case). -/
def maxList : List ℚ → ℚ
  | [] => 0
  | x :: xs => xs.foldl max x

/-- The body of the per-line loop of `_extract_page_texts`: `none` when the
line has no spans or no merged content (the two `continue`s), otherwise the
merged entry. -/
def lineOut (l : Line) : Option TextOut :=
  if l.spans = [] then none
  else
    let content := lineContent l.spans
    if content = "" then none
    else
      let primary := primarySpan l.spans
      some
        { content := content
          bbox :=
            ⟨round2 (minList (l.spans.map (fun s => s.bbox.x0))),
             round2 (minList (l.spans.map (fun s => s.bbox.y0))),
             round2 (maxList (l.spans.map (fun s => s.bbox.x1))),
             round2 (maxList (l.spans.map (fun s => s.bbox.y1)))⟩
          font_size := round2 primary.size
          font := primary.font
          color_guess := color_guess_of primary.color }

/-- `_extract_page_texts(page)`: non-text blocks are skipped, each line of a
text block contributes at most one merged entry. -/
def extract_page_texts (blocks : List Block) : List TextOut :=
  (blocks.filter (fun b => b.type = 0)).flatMap
    (fun b => b.lines.filterMap lineOut)

/-- The dictionary returned by `doc.extract_image(xref)` when it is
non-empty (`ext` modelling `extracted.get('ext', 'bin')`, `width` and
`height` modelling `extracted.get('width', 0)` etc.). -/
structure ExtractedImage where
  ext : String
  width : ℕ
  height : ℕ
deriving DecidableEq

/-- One entry of the `images` list produced by `_extract_page_images`. -/
structure ImageRefOut where
  url : String
  filename : String
  bbox : BBoxOut
  width : ℕ
  height : ℕ
deriving DecidableEq

/-- `'{:02d}'.format(n)`. -/
def pad2 (n : ℕ) : String := if n < 10 then "0" ++ toString n else toString n

/-- `'{:03d}'.format(n)`. -/
def pad3 (n : ℕ) : String :=
  if n < 10 then "00" ++ toString n
  else if n < 100 then "0" ++ toString n
  else toString n

/-- `f"p{page_num:02d}_img{counter:03d}_xref{xref}.{ext}"`. -/
def imageFilename (page_num counter xref : ℕ) (ext : String) : String :=
  "p" ++ pad2 page_num ++ "_img" ++ pad3 counter ++ "_xref" ++ toString xref
    ++ "." ++ ext

/-- Round a fitz rect to the two-decimal output bbox. -/
def roundRect (r : Rect) : BBoxOut :=
  ⟨round2 r.x0, round2 r.y0, round2 r.x1, round2 r.y1⟩

/-- `_extract_page_images(page, doc, ...)` over the xrefs listed by
`page.get_images(full=True)` (`img[0]` of each tuple), threading the mutable
`img_counter`.  `extract_image` models `doc.extract_image` (`none` for an
empty dictionary, which the code skips) and `rects` models
`page.get_image_rects`; the code keeps only `rects[0]`, with a zero rect
when the list is empty.  Returns the built list and the final counter. -/
def extract_page_images (extract_image : ℕ → Option ExtractedImage)
    (rects : ℕ → List Rect) (public_base_url process_id : String)
    (page_num : ℕ) : List ℕ → ℕ → List ImageRefOut × ℕ
  | [], counter => ([], counter)
  | xref :: restXrefs, counter =>
    match extract_image xref with
    | none =>
      extract_page_images extract_image rects public_base_url process_id
        page_num restXrefs counter
    | some e =>
      let counter' := counter + 1
      let filename := imageFilename page_num counter' xref (pyLower e.ext)
      let rect := (rects xref).headD ⟨0, 0, 0, 0⟩
      let entry : ImageRefOut :=
        { url := build_public_asset_url public_base_url process_id filename
          filename := filename
          bbox := roundRect rect
          width := e.width
          height := e.height }
      let rest := extract_page_images extract_image rects public_base_url
        process_id page_num restXrefs counter'
      (entry :: rest.1, rest.2)

/-- `_RENDER_MAX_DIM`. -/
def RENDER_MAX_DIM : ℕ := 4000

/-- The pixel size at which one page render is persisted by
`render_page_previews`: downscaled by `scale = min(MAX/w, MAX/h)` with
truncation and a floor of 1 pixel when a dimension exceeds the cap,
otherwise the native render size. -/
def persistedSize (w h : ℕ) : ℕ × ℕ :=
  if RENDER_MAX_DIM < w ∨ RENDER_MAX_DIM < h then
    let scale : ℚ := min ((RENDER_MAX_DIM : ℚ) / w) ((RENDER_MAX_DIM : ℚ) / h)
    (max 1 (⌊(w : ℚ) * scale⌋.toNat), max 1 (⌊(h : ℚ) * scale⌋.toNat))
  else (w, h)

/-- One page's outcome in `render_page_previews`: the public URL appended to
`preview_urls` and the pixel size of the persisted PNG. -/
structure PreviewOut where
  url : String
  persistedW : ℕ
  persistedH : ℕ
deriving DecidableEq

/-- The page loop of `render_page_previews`, over the native pixmap sizes of
the successive pages (external PyMuPDF renders at the requested dpi). -/
def render_previews_from (public_base_url process_id : String) :
    List (ℕ × ℕ) → ℕ → List PreviewOut
  | [], _ => []
  | (w, h) :: rest, page_num =>
    { url := build_public_asset_url public_base_url process_id
        ("render_p" ++ pad2 page_num ++ ".png")
      persistedW := (persistedSize w h).1
      persistedH := (persistedSize w h).2 }
      :: render_previews_from public_base_url process_id rest (page_num + 1)

/-- `render_page_previews(pdf_path, ...)` given the native render sizes of
the document's pages in page order. -/
def render_page_previews (public_base_url process_id : String)
    (pageSizes : List (ℕ × ℕ)) : List PreviewOut :=
  render_previews_from public_base_url process_id pageSizes 0

/-! ### Previewer: services/previewer.py html_to_png -/

/-- Failures of `html_to_png`: exceptions propagating out of the
weasyprint/network stage, and the explicit
`ValueError('weasyprint produjo un PDF vacío')` for a zero-page
intermediate document. -/
inductive PreviewError where
  | upstream (msg : String)
  | emptyDocument
deriving DecidableEq

/-- `html_to_png(html_content, ...)` given the outcome of the external
weasyprint stage: either an upstream exception or the page count of the
intermediate PDF (`len(doc)`).  A zero-page intermediate raises the distinct
`ValueError`; otherwise the first page is rasterized and the public URL of
`preview.png` is returned. -/
def html_to_png (weasyResult : Except String ℕ)
    (public_base_url process_id : String) : Except PreviewError String :=
  match weasyResult with
  | .error m => .error (.upstream m)
  | .ok pages =>
    if pages = 0 then .error .emptyDocument
    else .ok (build_public_asset_url public_base_url process_id "preview.png")

/-! ### Spec-side definitions used only to compare code against spec text -/

/-- Modelled from the spec's words (claim comparison only): the 8×8
partition in which "the last row/column absorbs any remainder from integer
division".  This is the partition the spec describes, not the one the code
computes. -/
def specCellBox (w h row col : ℕ) : ℕ × ℕ × ℕ × ℕ :=
  (col * (w / 8), row * (h / 8),
   if col = 7 then w else (col + 1) * (w / 8),
   if row = 7 then h else (row + 1) * (h / 8))

/-- Modelled from the spec's words (claim comparison only): the fraction of
differing pixels inside one cell of the remainder-absorbing partition. -/
def specCellFraction (k : Kernel) (d : Image) (w h row col : ℕ) : ℚ :=
  let box := specCellBox w h row col
  (countDiffIn k d box.1 box.2.1 box.2.2.1 box.2.2.2 : ℚ) /
    ((box.2.2.1 - box.1) * (box.2.2.2 - box.2.1))

/-! ### Concrete instances used in witnesses and counterexamples -/

/-- A trivial resampling filter (all claims hold for every filter). -/
def constSample : Sampler := fun _ _ _ _ _ => white

/-- The identity blur kernel (all claims hold for every kernel). -/
def deltaKernel : Kernel := [(0, 0, 1)]

/-- A 4×2 constant image. -/
def sampleImgA : Image := ⟨4, 2, fun _ _ => ⟨10, 20, 30⟩⟩

/-- A 2×3 constant image. -/
def sampleImgB : Image := ⟨2, 3, fun _ _ => ⟨50, 60, 70⟩⟩

/-- A 15×8 all-black image. -/
def farImgA : Image := ⟨15, 8, fun _ _ => ⟨0, 0, 0⟩⟩

/-- A 15×8 image that is white exactly on its last pixel column `x = 14` —
seven pixels away from the last grid-covered column `x = 7`, beyond the
reach of any radius-1 blur. -/
def farImgB : Image :=
  ⟨15, 8, fun x _ => if x = 14 then ⟨255, 255, 255⟩ else ⟨0, 0, 0⟩⟩

/-- A realistic 1D Gaussian profile for `GaussianBlur(radius=1)`: the
binomial weights `[1, 4, 6, 4, 1] / 16` (σ ≈ 1, support 2). -/
def gauss1D : List (ℤ × ℚ) :=
  [(-2, 1/16), (-1, 4/16), (0, 6/16), (1, 4/16), (2, 1/16)]

/-- The separable 2D kernel built from `gauss1D`: a concrete stand-in for
PIL's `GaussianBlur(radius=1)`.  Its taps stay within ±2 pixels; every
conclusion drawn from it below is also proved for every kernel whose taps
stay within ±6 pixels. -/
def gaussKernel : Kernel :=
  gauss1D.flatMap (fun a => gauss1D.map (fun b => (a.1, b.1, a.2 * b.2)))

/-- A whitespace-only span. -/
def wsSpan : Span := ⟨"  ", ⟨0, 0, 1, 1⟩, 10, "f0", 255⟩

/-- A span with visible text. -/
def hiSpan : Span := ⟨"hi", ⟨2, 1, 5, 3⟩, 12, "f1", 65280⟩

/-! ### Generic lemmas about the rounding model -/

theorem pyRound_within_half (q : ℚ) : |(pyRound q : ℚ) - q| ≤ 1/2 := by
  have hfl : (⌊q⌋ : ℚ) ≤ q := Int.floor_le q
  have hfu : q < ⌊q⌋ + 1 := Int.lt_floor_add_one q
  unfold pyRound
  split
  · rw [abs_le]; constructor <;> linarith
  · split
    · rw [abs_le]; push_cast; constructor <;> linarith
    · split
      · rw [abs_le]; constructor <;> linarith
      · rw [abs_le]; push_cast; constructor <;> linarith

theorem roundTo_intCast (d : ℕ) (n : ℤ) : roundTo d (n : ℚ) = n := by
  unfold roundTo
  have h : ((n : ℚ) * 10 ^ d) = ((n * 10 ^ d : ℤ) : ℚ) := by push_cast; ring
  rw [h, pyRound_intCast]
  push_cast
  field_simp

theorem round4_one : round4 1 = 1 := by
  have h := roundTo_intCast 4 1
  simpa [round4] using h

theorem round4_mem_unit (q : ℚ) (h0 : 0 ≤ q) (h1 : q ≤ 1) :
    0 ≤ round4 q ∧ round4 q ≤ 1 := by
  unfold round4 roundTo
  have hpow : (0:ℚ) < 10 ^ 4 := by norm_num
  have hn : 0 ≤ pyRound (q * 10 ^ 4) :=
    pyRound_nonneg _ (by positivity)
  have hu : pyRound (q * 10 ^ 4) ≤ (10 ^ 4 : ℤ) := by
    apply pyRound_le_of_le
    push_cast
    nlinarith
  constructor
  · positivity
  · rw [div_le_one hpow]
    exact_mod_cast hu

theorem round4_den_bound (q : ℚ) : round4 q * 10 ^ 4 = ((pyRound (q * 10 ^ 4) : ℤ) : ℚ) := by
  unfold round4 roundTo
  field_simp

theorem scaledHeight_prop (h w tw : ℕ) (hw : 0 < w) :
    |((scaledHeight h w tw : ℕ) : ℚ) - (h * tw : ℚ) / w| ≤ 1/2 := by
  unfold scaledHeight
  have hq : (0:ℚ) ≤ (h * tw : ℚ) / w := by positivity
  have hnn := pyRound_nonneg _ hq
  have hcast : (((pyRound ((h * tw : ℚ) / w)).toNat : ℕ) : ℚ) =
      ((pyRound ((h * tw : ℚ) / w)) : ℚ) := by
    exact_mod_cast Int.toNat_of_nonneg hnn
  rw [hcast]
  exact pyRound_within_half _

/-! ### Dimension lemmas for the normalization pipeline -/

theorem normalizeWidth_width (sample : Sampler) (img : Image) (tw : ℕ) :
    (normalizeWidth sample img tw).width = tw := by
  unfold normalizeWidth
  split
  · rfl
  · next h => exact Classical.byContradiction fun _ => h (by simp_all [resize])

theorem normalizeWidth_of_eq (sample : Sampler) (img : Image) (tw : ℕ)
    (h : img.width = tw) : normalizeWidth sample img tw = img := by
  unfold normalizeWidth
  simp [h]

theorem normalizeWidth_of_ne (sample : Sampler) (img : Image) (tw : ℕ)
    (h : img.width ≠ tw) :
    normalizeWidth sample img tw =
      resize sample img tw (scaledHeight img.height img.width tw) := by
  unfold normalizeWidth
  simp [h]

theorem padToHeight_width (img : Image) (tw th : ℕ) (h : img.width = tw) :
    (padToHeight img tw th).width = tw := by
  unfold padToHeight
  split <;> simp [h]

theorem padToHeight_height (img : Image) (tw th : ℕ) (h : img.height ≤ th) :
    (padToHeight img tw th).height = th := by
  unfold padToHeight
  split
  · rfl
  · next h' => omega

theorem padToHeight_px_copy (img : Image) (tw th x y : ℕ)
    (hx : x < img.width) (hy : y < img.height) :
    (padToHeight img tw th).px x y = img.px x y := by
  unfold padToHeight
  split
  · simp [hx, hy]
  · rfl

theorem padToHeight_px_pad (img : Image) (tw th x y : ℕ)
    (hy : img.height ≤ y) (hyt : y < th) :
    (padToHeight img tw th).px x y = white := by
  unfold padToHeight
  split
  · have : ¬ (x < img.width ∧ y < img.height) := by omega
    simp [this]
  · next h' => omega

theorem normalizePair_fst_width (sample : Sampler) (a b : Image) :
    (normalizePair sample a b).1.width = min a.width b.width := by
  unfold normalizePair
  exact padToHeight_width _ _ _ (normalizeWidth_width sample a _)

theorem normalizePair_snd_width (sample : Sampler) (a b : Image) :
    (normalizePair sample a b).2.width = min a.width b.width := by
  unfold normalizePair
  exact padToHeight_width _ _ _ (normalizeWidth_width sample b _)

theorem normalizePair_fst_height (sample : Sampler) (a b : Image) :
    (normalizePair sample a b).1.height =
      max (normalizeWidth sample a (min a.width b.width)).height
        (normalizeWidth sample b (min a.width b.width)).height := by
  unfold normalizePair
  exact padToHeight_height _ _ _ (le_max_left _ _)

theorem normalizePair_snd_height (sample : Sampler) (a b : Image) :
    (normalizePair sample a b).2.height =
      max (normalizeWidth sample a (min a.width b.width)).height
        (normalizeWidth sample b (min a.width b.width)).height := by
  unfold normalizePair
  exact padToHeight_height _ _ _ (le_max_right _ _)

/-! ### Claim C1: normalization before comparison -/

/-- C1: `visual_diff` normalizes the two loaded images before comparison:
the target width is the minimum of the two widths; an image is resized
exactly when it is wider than the target, to the target width with its
height scaled proportionally (`round(h * target_w / w)`, within half a
pixel of exact proportionality, via the LANCZOS filter); the target height
is then the maximum of the two post-scaling heights; and each canvas keeps
its image's pixels top-left-anchored, with white padding exactly on the
rows below the image — padding only at the bottom. -/
theorem visual_diff_normalization (sample : Sampler) (k : Kernel)
    (a b : Image) :
    (visual_diff sample k a b).width = targetWidth a b ∧
    (visual_diff sample k a b).height = targetHeight sample a b ∧
    (normalizePair sample a b).1.width = targetWidth a b ∧
    (normalizePair sample a b).2.width = targetWidth a b ∧
    (normalizePair sample a b).1.height = targetHeight sample a b ∧
    (normalizePair sample a b).2.height = targetHeight sample a b ∧
    (targetWidth a b < a.width →
      normalizeWidth sample a (targetWidth a b) =
        resize sample a (targetWidth a b)
          (scaledHeight a.height a.width (targetWidth a b)) ∧
      |((normalizeWidth sample a (targetWidth a b)).height : ℚ) -
          (a.height * targetWidth a b : ℚ) / a.width| ≤ 1/2) ∧
    (a.width = targetWidth a b →
      normalizeWidth sample a (targetWidth a b) = a) ∧
    (targetWidth a b < b.width →
      normalizeWidth sample b (targetWidth a b) =
        resize sample b (targetWidth a b)
          (scaledHeight b.height b.width (targetWidth a b)) ∧
      |((normalizeWidth sample b (targetWidth a b)).height : ℚ) -
          (b.height * targetWidth a b : ℚ) / b.width| ≤ 1/2) ∧
    (b.width = targetWidth a b →
      normalizeWidth sample b (targetWidth a b) = b) ∧
    (∀ x y, x < (normalizeWidth sample a (targetWidth a b)).width →
      y < (normalizeWidth sample a (targetWidth a b)).height →
      (normalizePair sample a b).1.px x y =
        (normalizeWidth sample a (targetWidth a b)).px x y) ∧
    (∀ x y, (normalizeWidth sample a (targetWidth a b)).height ≤ y →
      y < targetHeight sample a b → (normalizePair sample a b).1.px x y = white) ∧
    (∀ x y, x < (normalizeWidth sample b (targetWidth a b)).width →
      y < (normalizeWidth sample b (targetWidth a b)).height →
      (normalizePair sample a b).2.px x y =
        (normalizeWidth sample b (targetWidth a b)).px x y) ∧
    (∀ x y, (normalizeWidth sample b (targetWidth a b)).height ≤ y →
      y < targetHeight sample a b → (normalizePair sample a b).2.px x y = white) := by
  refine ⟨rfl, rfl, normalizePair_fst_width sample a b,
    normalizePair_snd_width sample a b, normalizePair_fst_height sample a b,
    normalizePair_snd_height sample a b, ?_, ?_, ?_, ?_, ?_, ?_, ?_, ?_⟩
  · intro hlt
    have hne : a.width ≠ targetWidth a b := ne_of_gt hlt
    refine ⟨normalizeWidth_of_ne sample a _ hne, ?_⟩
    rw [normalizeWidth_of_ne sample a _ hne]
    exact scaledHeight_prop a.height a.width _ (lt_of_le_of_lt (Nat.zero_le _) hlt)
  · exact normalizeWidth_of_eq sample a _
  · intro hlt
    have hne : b.width ≠ targetWidth a b := ne_of_gt hlt
    refine ⟨normalizeWidth_of_ne sample b _ hne, ?_⟩
    rw [normalizeWidth_of_ne sample b _ hne]
    exact scaledHeight_prop b.height b.width _ (lt_of_le_of_lt (Nat.zero_le _) hlt)
  · exact normalizeWidth_of_eq sample b _
  · intro x y hx hy
    exact padToHeight_px_copy _ _ _ _ _ hx hy
  · intro x y hy hyt
    exact padToHeight_px_pad _ _ _ _ _ hy hyt
  · intro x y hx hy
    exact padToHeight_px_copy _ _ _ _ _ hx hy
  · intro x y hy hyt
    exact padToHeight_px_pad _ _ _ _ _ hy hyt

/-- Witness for C1 at a concrete input: a 4×2 and a 2×3 image normalize to a
2-wide, 3-high pair of canvases, and the padded row of the first canvas is
white. -/
theorem visual_diff_normalization_witness :
    (visual_diff constSample deltaKernel sampleImgA sampleImgB).width = 2 ∧
    (visual_diff constSample deltaKernel sampleImgA sampleImgB).height = 3 ∧
    (normalizePair constSample sampleImgA sampleImgB).1.px 0 2 = white := by
  have h := visual_diff_normalization constSample deltaKernel sampleImgA sampleImgB
  refine ⟨?_, ?_, ?_⟩
  · rw [h.1]
    with_unfolding_all decide
  · rw [h.2.1]
    with_unfolding_all decide
  · apply h.2.2.2.2.2.2.2.2.2.2.2.1 0 2
    · with_unfolding_all decide
    · with_unfolding_all decide

/-! ### Lemmas about the difference image and the blur -/

theorem chanDiff_self (x : ℕ) : chanDiff x x = 0 := by
  simp [chanDiff]

theorem chanDiff_comm (x y : ℕ) : chanDiff x y = chanDiff y x := by
  simp [chanDiff, Nat.max_comm, Nat.min_comm]

theorem padToHeight_self (img : Image) (tw : ℕ) :
    padToHeight img tw img.height = img := by
  unfold padToHeight
  simp

theorem normalizePair_self (sample : Sampler) (img : Image) :
    normalizePair sample img img = (img, img) := by
  unfold normalizePair
  simp [Nat.min_self, Nat.max_self, normalizeWidth_of_eq, padToHeight_self]

theorem difference_self (img : Image) :
    difference img img = ⟨img.width, img.height, fun _ _ => ⟨0, 0, 0⟩⟩ := by
  refine Image.ext_iff'.mpr ⟨rfl, rfl, ?_⟩
  funext x y
  simp [difference, chanDiff_self]

theorem blurChan_zero (k : Kernel) (w h x y : ℕ) :
    blurChan k w h (fun _ _ => (0:ℕ)) x y = 0 := by
  unfold blurChan
  induction k with
  | nil => rfl
  | cons t ts ih => simp_all

theorem pixelDiffers_self_false (k : Kernel) (img : Image) (x y : ℕ) :
    ¬ pixelDiffers k (difference img img) x y := by
  unfold pixelDiffers blurMaxChan
  rw [difference_self]
  dsimp only
  simp only [blurChan_zero]
  norm_num

theorem countDiffIn_self (k : Kernel) (img : Image) (x0 y0 x1 y1 : ℕ) :
    countDiffIn k (difference img img) x0 y0 x1 y1 = 0 := by
  unfold countDiffIn
  rw [Finset.card_eq_zero, Finset.filter_eq_empty_iff]
  intro p _
  exact pixelDiffers_self_false k img p.1 p.2

theorem difference_comm (a b : Image) (hw : a.width = b.width)
    (hh : a.height = b.height) : difference a b = difference b a := by
  refine Image.ext_iff'.mpr ⟨hw, hh, ?_⟩
  funext x y
  simp [difference, chanDiff_comm]

theorem normalizePair_swap (sample : Sampler) (a b : Image) :
    normalizePair sample b a =
      ((normalizePair sample a b).2, (normalizePair sample a b).1) := by
  unfold normalizePair
  dsimp only
  rw [Nat.min_comm b.width a.width,
    Nat.max_comm (normalizeWidth sample b (min a.width b.width)).height]

/-! ### Claim C3: score of identical inputs and the score formula -/

/-- C3: `visual_diff` of two identical copies of a positive-area image has
score exactly 1; in general the score is `1` minus the fraction of pixels of
the normalized canvas whose blurred per-channel absolute difference has
maximum above 15, rounded to 4 decimal places, and a zero-area canvas is
scored 1. -/
theorem visual_diff_score_spec (sample : Sampler) (k : Kernel) :
    (∀ img : Image, 0 < img.width → 0 < img.height →
      (visual_diff sample k img img).score = 1) ∧
    (∀ a b : Image,
      (visual_diff sample k a b).score =
        if targetWidth a b * targetHeight sample a b ≠ 0 then
          round4 (1 - (countDiffIn k (diffCanvas sample a b) 0 0
            (targetWidth a b) (targetHeight sample a b) : ℚ) /
            ((targetWidth a b * targetHeight sample a b : ℕ) : ℚ))
        else 1) := by
  constructor
  · intro img hw hh
    have hd : diffCanvas sample img img = difference img img := by
      unfold diffCanvas
      rw [normalizePair_self]
    have htw : targetWidth img img = img.width := Nat.min_self _
    have hth : targetHeight sample img img = img.height := by
      unfold targetHeight
      rw [htw, normalizeWidth_of_eq sample img _ rfl, Nat.max_self]
    show (if targetWidth img img * targetHeight sample img img ≠ 0 then
        round4 (1 - (countDiffIn k (diffCanvas sample img img) 0 0
          (targetWidth img img) (targetHeight sample img img) : ℚ) /
          ((targetWidth img img * targetHeight sample img img : ℕ) : ℚ))
      else 1) = 1
    rw [hd, htw, hth, countDiffIn_self]
    have hne : img.width * img.height ≠ 0 := Nat.mul_ne_zero (by omega) (by omega)
    rw [if_pos hne]
    simpa using round4_one
  · intro a b
    rfl

/-- Witness for C3 at a concrete input: a 2×3 image diffed against itself
scores exactly 1. -/
theorem visual_diff_score_spec_witness :
    0 < sampleImgB.width ∧ 0 < sampleImgB.height ∧
    (visual_diff constSample deltaKernel sampleImgB sampleImgB).score = 1 :=
  ⟨by decide, by decide,
    (visual_diff_score_spec constSample deltaKernel).1 sampleImgB
      (by decide) (by decide)⟩

/-! ### Claim C9: symmetry of visual_diff -/

theorem visual_diff_swap_eq (sample : Sampler) (k : Kernel) (a b : Image) :
    visual_diff sample k b a = visual_diff sample k a b := by
  have h1 : targetWidth b a = targetWidth a b := Nat.min_comm _ _
  have h2 : targetHeight sample b a = targetHeight sample a b := by
    unfold targetHeight
    rw [h1, Nat.max_comm]
  have h3 : diffCanvas sample b a = diffCanvas sample a b := by
    unfold diffCanvas
    rw [normalizePair_swap sample a b]
    dsimp only
    exact difference_comm _ _
      (by rw [normalizePair_snd_width, normalizePair_fst_width])
      (by rw [normalizePair_snd_height, normalizePair_fst_height])
  unfold visual_diff
  rw [h1, h2, h3]

/-- C9: `visual_diff` is symmetric in its two image arguments: swapping the
inputs yields the same score, the same width, the same height (and in fact
the same reported cells). -/
theorem visual_diff_symm (sample : Sampler) (k : Kernel) (a b : Image) :
    (visual_diff sample k a b).score = (visual_diff sample k b a).score ∧
    (visual_diff sample k a b).width = (visual_diff sample k b a).width ∧
    (visual_diff sample k a b).height = (visual_diff sample k b a).height ∧
    (visual_diff sample k a b).diffs = (visual_diff sample k b a).diffs := by
  rw [visual_diff_swap_eq]
  exact ⟨rfl, rfl, rfl, rfl⟩

/-! ### Grid-report lemmas for claims C2 and C10 -/

theorem cellReport_eq_some_iff (k : Kernel) (d : Image) (w h cw ch row col : ℕ)
    (c : DiffCell) :
    cellReport k d w h cw ch row col = some c ↔
      cellTotal w h cw ch row col ≠ 0 ∧
      c = ⟨row, col, round4 ((cellCount k d w h cw ch row col : ℚ) /
        (cellTotal w h cw ch row col : ℕ))⟩ ∧
      1/100 < c.diff_pct := by
  unfold cellReport
  dsimp only
  split_ifs with h1 h2
  · constructor
    · intro he
      simp at he
    · rintro ⟨hne, -, -⟩
      exact absurd h1 hne
  · constructor
    · intro he
      injection he with he
      exact ⟨h1, he.symm, by rw [← he]; exact h2⟩
    · rintro ⟨-, rfl, -⟩
      rfl
  · constructor
    · intro he
      simp at he
    · rintro ⟨-, rfl, hgt⟩
      exact absurd hgt h2

theorem mem_gridDiffs_iff (k : Kernel) (d : Image) (w h : ℕ) (c : DiffCell) :
    c ∈ gridDiffs k d w h ↔
      ∃ row, row < 8 ∧ ∃ col, col < 8 ∧
        cellReport k d w h (max 1 (w / 8)) (max 1 (h / 8)) row col = some c := by
  unfold gridDiffs
  simp [List.mem_flatMap, List.mem_filterMap, List.mem_range]

theorem pairwise_filterMap_of {α β : Type _} (g : α → Option β)
    (R : β → β → Prop) (S : α → α → Prop)
    (h : ∀ a b x y, S a b → g a = some x → g b = some y → R x y) :
    ∀ l : List α, l.Pairwise S → (l.filterMap g).Pairwise R := by
  intro l
  induction l with
  | nil => intro _; simp
  | cons a tl ih =>
    intro hl
    rw [List.filterMap_cons]
    cases hga : g a with
    | none => exact ih (List.Pairwise.of_cons hl)
    | some x =>
      refine List.Pairwise.cons ?_ (ih (List.Pairwise.of_cons hl))
      intro y hy
      obtain ⟨b, hb, hgb⟩ := List.mem_filterMap.mp hy
      exact h a b x y (List.rel_of_pairwise_cons hl hb) hga hgb

theorem pairwise_flatMap_of {α β : Type _} (f : α → List β)
    (R : β → β → Prop) (S : α → α → Prop)
    (hcross : ∀ a b, S a b → ∀ x ∈ f a, ∀ y ∈ f b, R x y) :
    ∀ l : List α, l.Pairwise S → (∀ a ∈ l, (f a).Pairwise R) →
      (l.flatMap f).Pairwise R := by
  intro l
  induction l with
  | nil => intro _ _; simp
  | cons a tl ih =>
    intro hl hin
    rw [List.flatMap_cons, List.pairwise_append]
    refine ⟨hin a (List.mem_cons_self a tl),
      ih (List.Pairwise.of_cons hl)
        (fun b hb => hin b (List.mem_cons_of_mem a hb)), ?_⟩
    intro x hx y hy
    obtain ⟨b, hb, hyb⟩ := List.mem_flatMap.mp hy
    exact hcross a b (List.rel_of_pairwise_cons hl hb) x hx y hyb

theorem gridDiffs_pairwise (k : Kernel) (d : Image) (w h : ℕ) :
    (gridDiffs k d w h).Pairwise
      (fun c1 c2 => c1.row < c2.row ∨ (c1.row = c2.row ∧ c1.col < c2.col)) := by
  unfold gridDiffs
  apply pairwise_flatMap_of _ _ (fun r1 r2 : ℕ => r1 < r2)
  · intro r1 r2 hlt x hx y hy
    obtain ⟨c1, -, hc1⟩ := List.mem_filterMap.mp hx
    obtain ⟨c2, -, hc2⟩ := List.mem_filterMap.mp hy
    obtain ⟨-, rfl, -⟩ := (cellReport_eq_some_iff _ _ _ _ _ _ _ _ _).mp hc1
    obtain ⟨-, rfl, -⟩ := (cellReport_eq_some_iff _ _ _ _ _ _ _ _ _).mp hc2
    exact Or.inl hlt
  · exact List.pairwise_lt_range 8
  · intro row _
    apply pairwise_filterMap_of _ _ (fun a b : ℕ => a < b)
    · intro a b x y hab hga hgb
      obtain ⟨-, rfl, -⟩ := (cellReport_eq_some_iff _ _ _ _ _ _ _ _ _).mp hga
      obtain ⟨-, rfl, -⟩ := (cellReport_eq_some_iff _ _ _ _ _ _ _ _ _).mp hgb
      exact Or.inr ⟨rfl, hab⟩
    · exact List.pairwise_lt_range 8

theorem cell_index_eq_div (cw x c1 : ℕ) (hcw : 0 < cw)
    (h1 : c1 * cw ≤ x) (h2 : x < (c1 + 1) * cw) : c1 = x / cw := by
  have ha : c1 ≤ x / cw := (Nat.le_div_iff_mul_le hcw).mpr h1
  have hb : x / cw < c1 + 1 := (Nat.div_lt_iff_lt_mul hcw).mpr h2
  omega

/-! ### Claim C2: the 8×8 grid report -/

theorem round4_zero : round4 0 = 0 := by
  have h := roundTo_intCast 4 0
  simpa [round4] using h

theorem cellReport_none_of_count_zero (k : Kernel) (d : Image)
    (w h cw ch row col : ℕ)
    (hc : cellCount k d w h cw ch row col = 0) :
    cellReport k d w h cw ch row col = none := by
  unfold cellReport
  dsimp only
  split_ifs with h1 h2
  · rfl
  · exfalso
    rw [hc] at h2
    norm_num [round4_zero] at h2
  · rfl

theorem normalizePair_far (sample : Sampler) :
    normalizePair sample farImgA farImgB = (farImgA, farImgB) := by
  simp only [normalizePair]
  rw [normalizeWidth_of_eq sample farImgA (min farImgA.width farImgB.width) rfl,
    normalizeWidth_of_eq sample farImgB (min farImgA.width farImgB.width) rfl]
  have h1 : padToHeight farImgA (min farImgA.width farImgB.width)
      (max farImgA.height farImgB.height) = farImgA := by
    unfold padToHeight
    rw [if_neg (by decide)]
  have h2 : padToHeight farImgB (min farImgA.width farImgB.width)
      (max farImgA.height farImgB.height) = farImgB := by
    unfold padToHeight
    rw [if_neg (by decide)]
  rw [h1, h2]

theorem diffCanvas_far (sample : Sampler) :
    diffCanvas sample farImgA farImgB = difference farImgA farImgB := by
  unfold diffCanvas
  rw [normalizePair_far sample]

/-- A blurred channel is zero when every kernel tap lands on a coordinate
where the channel is zero. -/
theorem blurChan_zero_of_far (k : Kernel) (w h : ℕ) (chan : ℕ → ℕ → ℕ)
    (x y : ℕ) (hk : ∀ t ∈ k, clampCoord w ((x : ℤ) + t.1) ≤ 13)
    (hchan : ∀ a b, a ≤ 13 → chan a b = 0) :
    blurChan k w h chan x y = 0 := by
  unfold blurChan
  apply List.sum_eq_zero
  intro v hv
  obtain ⟨t, ht, rfl⟩ := List.mem_map.mp hv
  rw [hchan _ _ (hk t ht)]
  simp

/-- On the 15-wide far-difference canvas, any kernel whose taps stay within
±6 pixels blurs the covered columns `x ≤ 7` to exactly zero: the only
difference sits at `x = 14`, seven pixels away. -/
theorem far_blurMaxChan_zero (k : Kernel)
    (hk : ∀ t ∈ k, t.1 ≤ (6 : ℤ) ∧ (-6 : ℤ) ≤ t.1) (x y : ℕ) (hx : x ≤ 7) :
    blurMaxChan k (difference farImgA farImgB) x y = 0 := by
  have hclamp : ∀ t ∈ k,
      clampCoord (difference farImgA farImgB).width ((x : ℤ) + t.1) ≤ 13 := by
    intro t ht
    show clampCoord 15 ((x : ℤ) + t.1) ≤ 13
    unfold clampCoord
    have hxz : (x : ℤ) ≤ 7 := by exact_mod_cast hx
    have h3 : max 0 ((x : ℤ) + t.1) ≤ 13 :=
      max_le (by norm_num) (by have := (hk t ht).1; omega)
    refine Int.toNat_le.mpr ?_
    exact_mod_cast le_trans (min_le_left _ _) h3
  have hr : ∀ a b : ℕ, a ≤ 13 →
      (fun x y => ((difference farImgA farImgB).px x y).r) a b = 0 := by
    intro a b ha
    simp [difference, farImgA, farImgB, chanDiff, show a ≠ 14 by omega]
  have hg : ∀ a b : ℕ, a ≤ 13 →
      (fun x y => ((difference farImgA farImgB).px x y).g) a b = 0 := by
    intro a b ha
    simp [difference, farImgA, farImgB, chanDiff, show a ≠ 14 by omega]
  have hb : ∀ a b : ℕ, a ≤ 13 →
      (fun x y => ((difference farImgA farImgB).px x y).b) a b = 0 := by
    intro a b ha
    simp [difference, farImgA, farImgB, chanDiff, show a ≠ 14 by omega]
  unfold blurMaxChan
  rw [blurChan_zero_of_far k _ _ _ x y hclamp hr,
    blurChan_zero_of_far k _ _ _ x y hclamp hg,
    blurChan_zero_of_far k _ _ _ x y hclamp hb]
  simp

/-- For every resampling filter and every blur kernel whose taps stay
within ±6 pixels — which covers any real radius-1 Gaussian blur —
`visual_diff` on the far-difference pair reports no grid cell at all: the
differing column `x = 14` lies in the remainder strip beyond `8 * cell_w`,
outside every cell, and its blur cannot reach the covered columns. -/
theorem farDiff_gridDiffs_nil (sample : Sampler) (k : Kernel)
    (hk : ∀ t ∈ k, t.1 ≤ (6 : ℤ) ∧ (-6 : ℤ) ≤ t.1) :
    (visual_diff sample k farImgA farImgB).diffs = [] := by
  show gridDiffs k (diffCanvas sample farImgA farImgB)
    (targetWidth farImgA farImgB) (targetHeight sample farImgA farImgB) = []
  rw [diffCanvas_far sample,
    show targetWidth farImgA farImgB = 15 from rfl,
    show targetHeight sample farImgA farImgB = 8 from rfl]
  simp only [gridDiffs]
  rw [List.flatMap_eq_nil_iff]
  intro row hrow
  rw [List.filterMap_eq_nil_iff]
  intro col hcol
  rw [List.mem_range] at hcol
  apply cellReport_none_of_count_zero
  unfold cellCount countDiffIn cellBox
  dsimp only
  rw [Finset.card_eq_zero, Finset.filter_eq_empty_iff]
  intro p hp
  rw [Finset.mem_product, Finset.mem_Ico, Finset.mem_Ico] at hp
  have hmin := min_le_left ((col + 1) * max 1 (15 / 8)) 15
  have hp1 : p.1 ≤ 7 := by
    have h15 : max 1 (15 / 8) = 1 := rfl
    rw [h15] at hp hmin
    omega
  unfold pixelDiffers
  rw [far_blurMaxChan_zero k hk p.1 p.2 hp1]
  norm_num

/-- Counterexample to C2 as stated: on a 15×8 normalized canvas whose last
pixel column `x = 14` fully differs, `visual_diff` (with a realistic
radius-1 Gaussian kernel; `farDiff_gridDiffs_nil` proves the same for every
kernel reaching at most 6 pixels) reports no cell at all, because the
remainder columns `8 ≤ x < 15` beyond `8 * cell_w` belong to no cell — yet
under the spec's remainder-absorbing partition the cell `(0, 7)` spans
`7 ≤ x < 15` and has diff fraction 3/8 > 1%, so the claim predicts it (and
its whole column) in `diffs`. -/
theorem gridDiffs_remainder_counterexample :
    (visual_diff constSample gaussKernel farImgA farImgB).width = 15 ∧
    (visual_diff constSample gaussKernel farImgA farImgB).height = 8 ∧
    (visual_diff constSample gaussKernel farImgA farImgB).diffs = [] ∧
    specCellFraction gaussKernel
      (diffCanvas constSample farImgA farImgB) 15 8 0 7 = 3/8 ∧
    ((1:ℚ)/100 < 3/8) := by
  refine ⟨rfl, rfl,
    farDiff_gridDiffs_nil constSample gaussKernel (by decide), ?_, by norm_num⟩
  rw [diffCanvas_far constSample]
  with_unfolding_all decide

/-- C2 (amended): `visual_diff` scans an 8×8 grid of cells of size
`max 1 (w / 8)` by `max 1 (h / 8)` clipped to the canvas; distinct cells are
disjoint, but they cover only the pixels with `x < 8 * cell_w` and
`y < 8 * cell_h` — when a dimension is at least 8 and not divisible by 8 the
trailing remainder pixels belong to no cell (and when it is smaller than 8,
trailing cells are empty and skipped).  A cell appears in `diffs` iff its
clipped box is nonempty and its fraction of differing pixels, rounded to 4
decimal places, exceeds 1%; entries carry 0-based indices and are listed in
row-major order. -/
theorem gridDiffs_characterization (k : Kernel) (d : Image) (w h : ℕ) :
    (∀ c : DiffCell, c ∈ gridDiffs k d w h ↔
      (c.row < 8 ∧ c.col < 8 ∧
        cellTotal w h (max 1 (w / 8)) (max 1 (h / 8)) c.row c.col ≠ 0 ∧
        c.diff_pct = round4
          ((cellCount k d w h (max 1 (w / 8)) (max 1 (h / 8)) c.row c.col : ℚ) /
            (cellTotal w h (max 1 (w / 8)) (max 1 (h / 8)) c.row c.col : ℕ)) ∧
        1/100 < c.diff_pct)) ∧
    (gridDiffs k d w h).Pairwise
      (fun c1 c2 => c1.row < c2.row ∨ (c1.row = c2.row ∧ c1.col < c2.col)) ∧
    (∀ x y, x < w → y < h →
      ((∃ row col, row < 8 ∧ col < 8 ∧
          inCellBox w h (max 1 (w / 8)) (max 1 (h / 8)) row col x y) ↔
        (x < 8 * max 1 (w / 8) ∧ y < 8 * max 1 (h / 8)))) ∧
    (∀ x y r1 c1 r2 c2,
      inCellBox w h (max 1 (w / 8)) (max 1 (h / 8)) r1 c1 x y →
      inCellBox w h (max 1 (w / 8)) (max 1 (h / 8)) r2 c2 x y →
      r1 = r2 ∧ c1 = c2) := by
  have hcw : 0 < max 1 (w / 8) := lt_of_lt_of_le Nat.one_pos (le_max_left _ _)
  have hch : 0 < max 1 (h / 8) := lt_of_lt_of_le Nat.one_pos (le_max_left _ _)
  refine ⟨?_, gridDiffs_pairwise k d w h, ?_, ?_⟩
  · intro c
    rw [mem_gridDiffs_iff]
    constructor
    · rintro ⟨row, hr, col, hc, hrep⟩
      obtain ⟨hne, hceq, hgt⟩ := (cellReport_eq_some_iff _ _ _ _ _ _ _ _ _).mp hrep
      subst hceq
      exact ⟨hr, hc, hne, rfl, hgt⟩
    · rintro ⟨hr, hc, hne, hpct, hgt⟩
      refine ⟨c.row, hr, c.col, hc, ?_⟩
      rw [cellReport_eq_some_iff]
      refine ⟨hne, ?_, hgt⟩
      rcases c with ⟨cr, cc, cp⟩
      dsimp only at hpct ⊢
      rw [hpct]
  · intro x y hxw hyh
    constructor
    · rintro ⟨row, col, hr, hc, h1, h2, h3, h4⟩
      constructor
      · have hx1 : x < (col + 1) * max 1 (w / 8) :=
          lt_of_lt_of_le h2 (min_le_left _ _)
        exact lt_of_lt_of_le hx1 (Nat.mul_le_mul_right _ (by omega))
      · have hy1 : y < (row + 1) * max 1 (h / 8) :=
          lt_of_lt_of_le h4 (min_le_left _ _)
        exact lt_of_lt_of_le hy1 (Nat.mul_le_mul_right _ (by omega))
    · rintro ⟨hx8, hy8⟩
      refine ⟨y / max 1 (h / 8), x / max 1 (w / 8),
        (Nat.div_lt_iff_lt_mul hch).mpr hy8,
        (Nat.div_lt_iff_lt_mul hcw).mpr hx8,
        Nat.div_mul_le_self x _,
        lt_min ((Nat.div_lt_iff_lt_mul hcw).mp (Nat.lt_succ_self _)) hxw,
        Nat.div_mul_le_self y _,
        lt_min ((Nat.div_lt_iff_lt_mul hch).mp (Nat.lt_succ_self _)) hyh⟩
  · intro x y r1 c1 r2 c2 hb1 hb2
    obtain ⟨h11, h12, h13, h14⟩ := hb1
    obtain ⟨h21, h22, h23, h24⟩ := hb2
    constructor
    · rw [cell_index_eq_div (max 1 (h / 8)) y r1 hch h13
        (lt_of_lt_of_le h14 (min_le_left _ _)),
        cell_index_eq_div (max 1 (h / 8)) y r2 hch h23
        (lt_of_lt_of_le h24 (min_le_left _ _))]
    · rw [cell_index_eq_div (max 1 (w / 8)) x c1 hcw h11
        (lt_of_lt_of_le h12 (min_le_left _ _)),
        cell_index_eq_div (max 1 (w / 8)) x c2 hcw h21
        (lt_of_lt_of_le h22 (min_le_left _ _))]

/-- Witness for C2 (amended) at a concrete input: on the 9×8 canvas the
membership characterization confirms that no cell is reported while the cell
boxes are disjoint and cover only `x < 8`. -/
theorem gridDiffs_characterization_witness :
    ¬ (⟨0, 7, 3/8⟩ : DiffCell) ∈ gridDiffs gaussKernel
      (diffCanvas constSample farImgA farImgB) 15 8 ∧
    ¬ (14 < 8 * max 1 (15 / 8)) := by
  constructor
  · intro hmem
    have h := (gridDiffs_characterization gaussKernel
      (diffCanvas constSample farImgA farImgB) 15 8).1
      ⟨0, 7, 3/8⟩ |>.mp hmem
    have hpct := h.2.2.2.1
    rw [diffCanvas_far constSample] at hpct
    revert hpct
    with_unfolding_all decide
  · decide

/-! ### Claim C10: invariants of every DiffResult -/

theorem countDiffIn_le (k : Kernel) (d : Image) (x0 y0 x1 y1 : ℕ) :
    countDiffIn k d x0 y0 x1 y1 ≤ (x1 - x0) * (y1 - y0) := by
  unfold countDiffIn
  refine le_trans (Finset.card_filter_le _ _) ?_
  rw [Finset.card_product, Nat.card_Ico, Nat.card_Ico]

/-- C10: every `DiffResult` produced by `visual_diff` has a score in
`[0, 1]` that is an integer multiple of `1/10^4` (4 decimal places), and
every reported cell has `row` and `col` in `{0, …, 7}` and a `diff_pct`
strictly above `1/100` and at most `1`, the entries being listed in
row-major order. -/
theorem visual_diff_result_invariants (sample : Sampler) (k : Kernel)
    (a b : Image) :
    (0 ≤ (visual_diff sample k a b).score ∧
      (visual_diff sample k a b).score ≤ 1) ∧
    (∃ n : ℤ, (visual_diff sample k a b).score = (n : ℚ) / 10 ^ 4) ∧
    (∀ c ∈ (visual_diff sample k a b).diffs,
      c.row ≤ 7 ∧ c.col ≤ 7 ∧ 1/100 < c.diff_pct ∧ c.diff_pct ≤ 1) ∧
    (visual_diff sample k a b).diffs.Pairwise
      (fun c1 c2 => c1.row < c2.row ∨ (c1.row = c2.row ∧ c1.col < c2.col)) := by
  refine ⟨?_, ?_, ?_, gridDiffs_pairwise k _ _ _⟩
  · show 0 ≤ (if _ ≠ 0 then _ else _) ∧ (if _ ≠ 0 then _ else _) ≤ 1
    split_ifs with hne
    · have htpos : (0:ℚ) < ((targetWidth a b * targetHeight sample a b : ℕ) : ℚ) := by
        exact_mod_cast Nat.pos_of_ne_zero hne
      have hcnt : (countDiffIn k (diffCanvas sample a b) 0 0
          (targetWidth a b) (targetHeight sample a b) : ℚ) ≤
          ((targetWidth a b * targetHeight sample a b : ℕ) : ℚ) := by
        have h := countDiffIn_le k (diffCanvas sample a b) 0 0
          (targetWidth a b) (targetHeight sample a b)
        rw [Nat.sub_zero, Nat.sub_zero] at h
        exact_mod_cast h
      have h0 : 0 ≤ 1 - (countDiffIn k (diffCanvas sample a b) 0 0
          (targetWidth a b) (targetHeight sample a b) : ℚ) /
          ((targetWidth a b * targetHeight sample a b : ℕ) : ℚ) := by
        have := (div_le_one htpos).mpr hcnt
        linarith
      have h1 : 1 - (countDiffIn k (diffCanvas sample a b) 0 0
          (targetWidth a b) (targetHeight sample a b) : ℚ) /
          ((targetWidth a b * targetHeight sample a b : ℕ) : ℚ) ≤ 1 := by
        have : 0 ≤ (countDiffIn k (diffCanvas sample a b) 0 0
            (targetWidth a b) (targetHeight sample a b) : ℚ) /
            ((targetWidth a b * targetHeight sample a b : ℕ) : ℚ) := by positivity
        linarith
      exact round4_mem_unit _ h0 h1
    · norm_num
  · show ∃ n : ℤ, (if _ ≠ 0 then _ else _) = (n : ℚ) / 10 ^ 4
    split_ifs with hne
    · exact ⟨pyRound ((1 - (countDiffIn k (diffCanvas sample a b) 0 0
        (targetWidth a b) (targetHeight sample a b) : ℚ) /
        ((targetWidth a b * targetHeight sample a b : ℕ) : ℚ)) * 10 ^ 4), rfl⟩
    · exact ⟨10 ^ 4, by norm_num⟩
  · intro c hc
    obtain ⟨row, hr, col, hcol, hrep⟩ := (mem_gridDiffs_iff _ _ _ _ _).mp hc
    obtain ⟨hne, hceq, hgt⟩ := (cellReport_eq_some_iff _ _ _ _ _ _ _ _ _).mp hrep
    subst hceq
    refine ⟨show row ≤ 7 by omega, show col ≤ 7 by omega, hgt, ?_⟩
    have htpos : (0:ℚ) < ((cellTotal (targetWidth a b)
        (targetHeight sample a b) (max 1 (targetWidth a b / 8))
        (max 1 (targetHeight sample a b / 8)) row col : ℕ) : ℚ) := by
      exact_mod_cast Nat.pos_of_ne_zero hne
    have hcnt : ((cellCount k (diffCanvas sample a b) (targetWidth a b)
        (targetHeight sample a b) (max 1 (targetWidth a b / 8))
        (max 1 (targetHeight sample a b / 8)) row col : ℕ) : ℚ) ≤
        ((cellTotal (targetWidth a b) (targetHeight sample a b)
          (max 1 (targetWidth a b / 8))
          (max 1 (targetHeight sample a b / 8)) row col : ℕ) : ℚ) := by
      exact_mod_cast countDiffIn_le k _ _ _ _ _
    have h0 : 0 ≤ ((cellCount k (diffCanvas sample a b) (targetWidth a b)
        (targetHeight sample a b) (max 1 (targetWidth a b / 8))
        (max 1 (targetHeight sample a b / 8)) row col : ℕ) : ℚ) /
        ((cellTotal (targetWidth a b) (targetHeight sample a b)
          (max 1 (targetWidth a b / 8))
          (max 1 (targetHeight sample a b / 8)) row col : ℕ) : ℚ) := by
      positivity
    have h1 := (div_le_one htpos).mpr hcnt
    exact (round4_mem_unit _ h0 h1).2

/-! ### Claim C6: zero-page intermediate documents are a distinct fatal error -/

/-- C6: `html_to_png` raises its distinct `ValueError` exactly when the
intermediate document produced by weasyprint has zero pages (for example
for an empty body); that error is distinct from upstream fetch/layout
failures, and no image URL is returned in that case. -/
theorem html_to_png_empty_document (r : Except String ℕ) (base pid : String) :
    (html_to_png r base pid = Except.error PreviewError.emptyDocument ↔
      r = Except.ok 0) ∧
    (∀ m : String, PreviewError.emptyDocument ≠ PreviewError.upstream m) ∧
    (∀ u : String, html_to_png (Except.ok 0) base pid ≠ Except.ok u) := by
  refine ⟨?_, fun m h => PreviewError.noConfusion h, fun u h => ?_⟩
  · cases r with
    | error m => simp [html_to_png]
    | ok n =>
      by_cases hn : n = 0
      · subst hn
        simp [html_to_png]
      · simp [html_to_png, hn]
  · simp [html_to_png] at h

/-! ### Claim C8: page previews, ordering and the 4000-px cap -/

theorem render_previews_from_length (base pid : String) :
    ∀ (l : List (ℕ × ℕ)) (start : ℕ),
      (render_previews_from base pid l start).length = l.length := by
  intro l
  induction l with
  | nil => intro start; rfl
  | cons p rest ih =>
    intro start
    cases p with
    | mk w h => simp [render_previews_from, ih]

theorem render_previews_from_get (base pid : String) :
    ∀ (l : List (ℕ × ℕ)) (start i : ℕ) (wh : ℕ × ℕ), l[i]? = some wh →
      (render_previews_from base pid l start)[i]? = some
        { url := build_public_asset_url base pid
            ("render_p" ++ pad2 (start + i) ++ ".png")
          persistedW := (persistedSize wh.1 wh.2).1
          persistedH := (persistedSize wh.1 wh.2).2 } := by
  intro l
  induction l with
  | nil =>
    intro start i wh h
    simp at h
  | cons p rest ih =>
    intro start i wh h
    cases p with
    | mk w hgt =>
      cases i with
      | zero =>
        simp at h
        rw [← h]
        simp [render_previews_from]
      | succ j =>
        simp at h
        have hj := ih (start + 1) j wh h
        have harith : start + 1 + j = start + (j + 1) := by omega
        rw [harith] at hj
        simpa [render_previews_from] using hj

/-- C8: `render_page_previews` yields one public URL per page, in page
order (`render_pNN.png`); a page whose native render exceeds 4000 px in
either dimension is persisted downscaled by one uniform factor `s < 1`
(applied to both dimensions, then truncated with a floor of one pixel) so
that both dimensions fit within 4000 px, and any other page is persisted at
its native render size. -/
theorem render_page_previews_spec (base pid : String)
    (pageSizes : List (ℕ × ℕ))
    (hpos : ∀ p ∈ pageSizes, 0 < p.1 ∧ 0 < p.2) :
    (render_page_previews base pid pageSizes).length = pageSizes.length ∧
    ∀ i wh, pageSizes[i]? = some wh →
      ∃ r : PreviewOut,
        (render_page_previews base pid pageSizes)[i]? = some r ∧
        r.url = build_public_asset_url base pid
          ("render_p" ++ pad2 i ++ ".png") ∧
        (RENDER_MAX_DIM < wh.1 ∨ RENDER_MAX_DIM < wh.2 →
          (∃ s : ℚ, 0 < s ∧ s < 1 ∧
            r.persistedW = max 1 (⌊(wh.1 : ℚ) * s⌋).toNat ∧
            r.persistedH = max 1 (⌊(wh.2 : ℚ) * s⌋).toNat) ∧
          r.persistedW ≤ RENDER_MAX_DIM ∧ r.persistedH ≤ RENDER_MAX_DIM) ∧
        (¬ (RENDER_MAX_DIM < wh.1 ∨ RENDER_MAX_DIM < wh.2) →
          r.persistedW = wh.1 ∧ r.persistedH = wh.2) := by
  refine ⟨render_previews_from_length base pid pageSizes 0, ?_⟩
  intro i wh h
  have hw : 0 < wh.1 ∧ 0 < wh.2 := hpos wh (List.getElem?_mem h)
  refine ⟨_, by simpa using render_previews_from_get base pid pageSizes 0 i wh h, rfl, ?_, ?_⟩
  · intro hcap
    have hw1 : (0:ℚ) < (wh.1 : ℚ) := by exact_mod_cast hw.1
    have hw2 : (0:ℚ) < (wh.2 : ℚ) := by exact_mod_cast hw.2
    constructor
    · refine ⟨min ((RENDER_MAX_DIM : ℚ) / wh.1) ((RENDER_MAX_DIM : ℚ) / wh.2),
        ?_, ?_, ?_, ?_⟩
      · have d1 : (0:ℚ) < (RENDER_MAX_DIM : ℚ) / wh.1 := by
          apply div_pos _ hw1
          norm_num [RENDER_MAX_DIM]
        have d2 : (0:ℚ) < (RENDER_MAX_DIM : ℚ) / wh.2 := by
          apply div_pos _ hw2
          norm_num [RENDER_MAX_DIM]
        exact lt_min d1 d2
      · rcases hcap with hc | hc
        · refine lt_of_le_of_lt (min_le_left _ _) ?_
          rw [div_lt_one hw1]
          exact_mod_cast hc
        · refine lt_of_le_of_lt (min_le_right _ _) ?_
          rw [div_lt_one hw2]
          exact_mod_cast hc
      · show (persistedSize wh.1 wh.2).1 = _
        unfold persistedSize
        rw [if_pos hcap]
      · show (persistedSize wh.1 wh.2).2 = _
        unfold persistedSize
        rw [if_pos hcap]
    · have hkey : ∀ a c : ℕ, 0 < (a:ℚ) → 0 < (c:ℚ) →
          max 1 (⌊(a : ℚ) * min ((RENDER_MAX_DIM : ℚ) / a)
            ((RENDER_MAX_DIM : ℚ) / c)⌋).toNat ≤ RENDER_MAX_DIM := by
        intro a c ha hc
        have hle : (a : ℚ) * min ((RENDER_MAX_DIM : ℚ) / a)
            ((RENDER_MAX_DIM : ℚ) / c) ≤ (RENDER_MAX_DIM : ℚ) := by
          have h1 : (a : ℚ) * min ((RENDER_MAX_DIM : ℚ) / a)
              ((RENDER_MAX_DIM : ℚ) / c) ≤ (a : ℚ) * ((RENDER_MAX_DIM : ℚ) / a) :=
            mul_le_mul_of_nonneg_left (min_le_left _ _) (le_of_lt ha)
          rw [mul_div_cancel₀ _ (ne_of_gt ha)] at h1
          exact h1
        have hfl : ⌊(a : ℚ) * min ((RENDER_MAX_DIM : ℚ) / a)
            ((RENDER_MAX_DIM : ℚ) / c)⌋ ≤ (RENDER_MAX_DIM : ℤ) := by
          have := Int.floor_le_floor hle
          simpa using this
        have : (⌊(a : ℚ) * min ((RENDER_MAX_DIM : ℚ) / a)
            ((RENDER_MAX_DIM : ℚ) / c)⌋).toNat ≤ RENDER_MAX_DIM := by
          omega
        have hone : (1:ℕ) ≤ RENDER_MAX_DIM := by norm_num [RENDER_MAX_DIM]
        omega
      constructor
      · show (persistedSize wh.1 wh.2).1 ≤ RENDER_MAX_DIM
        unfold persistedSize
        rw [if_pos hcap]
        exact hkey wh.1 wh.2 hw1 hw2
      · show (persistedSize wh.1 wh.2).2 ≤ RENDER_MAX_DIM
        unfold persistedSize
        rw [if_pos hcap]
        have := hkey wh.2 wh.1 hw2 hw1
        rw [min_comm ((RENDER_MAX_DIM : ℚ) / wh.2) ((RENDER_MAX_DIM : ℚ) / wh.1)] at this
        exact this
  · intro hcap
    constructor
    · show (persistedSize wh.1 wh.2).1 = wh.1
      unfold persistedSize
      rw [if_neg hcap]
    · show (persistedSize wh.1 wh.2).2 = wh.2
      unfold persistedSize
      rw [if_neg hcap]

/-- Witness for C8 at a concrete input: two pages, the first 8000×2000
(downscaled to 4000×1000), the second 300×400 (kept native). -/
theorem render_page_previews_spec_witness :
    (∀ p ∈ [(8000, 2000), (300, 400)], 0 < p.1 ∧ 0 < p.2) ∧
    (render_page_previews "http://b" "pid" [(8000, 2000), (300, 400)]).length = 2 ∧
    persistedSize 8000 2000 = (4000, 1000) ∧
    persistedSize 300 400 = (300, 400) := by
  refine ⟨by decide, ?_, ?_, ?_⟩
  · have h := (render_page_previews_spec "http://b" "pid"
      [(8000, 2000), (300, 400)] (by decide)).1
    simpa using h
  · with_unfolding_all decide
  · with_unfolding_all decide

/-! ### Claim C4: one ImageRef per image-list entry, first placement rect -/

/-- Counterexample to C4 as stated: a page whose image list
(`page.get_images(full=True)`) holds one resource entry with xref 5 that is
placed twice on the page (two placement rectangles) yields one single
ImageRef, whose bbox is the first placement rectangle only — not two
entries, one per placement rectangle. -/
theorem extract_page_images_counterexample :
    ((fun x : ℕ => if x = 5 then [(⟨1, 2, 3, 4⟩ : Rect), ⟨5, 6, 7, 8⟩] else []) 5).length
      = 2 ∧
    (extract_page_images
      (fun x => if x = 5 then some (⟨"png", 10, 20⟩ : ExtractedImage) else none)
      (fun x => if x = 5 then [(⟨1, 2, 3, 4⟩ : Rect), ⟨5, 6, 7, 8⟩] else [])
      "http://b" "p" 0 [5] 0).1.length = 1 ∧
    ((extract_page_images
      (fun x => if x = 5 then some (⟨"png", 10, 20⟩ : ExtractedImage) else none)
      (fun x => if x = 5 then [(⟨1, 2, 3, 4⟩ : Rect), ⟨5, 6, 7, 8⟩] else [])
      "http://b" "p" 0 [5] 0).1.map (fun r => r.bbox)) = [⟨1, 2, 3, 4⟩] := by
  refine ⟨rfl, ?_, ?_⟩
  · simp [extract_page_images]
  · simp [extract_page_images, roundRect]
    refine ⟨?_, ?_, ?_, ?_⟩ <;> with_unfolding_all decide

/-- C4 (amended): the extractor emits exactly one ImageRef per entry of the
page's embedded-image list whose `extract_image` result is non-empty (a
skipped entry produces nothing), with no deduplication between entries; the
bbox recorded for an entry is the first placement rectangle of its xref (a
zero rectangle when there is none), regardless of how many placement
rectangles exist. -/
theorem extract_page_images_per_entry (extract_image : ℕ → Option ExtractedImage)
    (rects : ℕ → List Rect) (base pid : String) (page_num : ℕ) :
    ∀ (xrefs : List ℕ) (counter : ℕ),
      (extract_page_images extract_image rects base pid page_num
        xrefs counter).1.length
        = (xrefs.filter (fun x => (extract_image x).isSome)).length ∧
      ((extract_page_images extract_image rects base pid page_num
        xrefs counter).1.map (fun r => r.bbox))
        = (xrefs.filter (fun x => (extract_image x).isSome)).map
            (fun x => roundRect ((rects x).headD ⟨0, 0, 0, 0⟩)) ∧
      ((extract_page_images extract_image rects base pid page_num
        xrefs counter).1.map (fun r => (r.width, r.height)))
        = (xrefs.filter (fun x => (extract_image x).isSome)).map
            (fun x => (((extract_image x).getD ⟨"", 0, 0⟩).width,
              ((extract_image x).getD ⟨"", 0, 0⟩).height)) := by
  intro xrefs
  induction xrefs with
  | nil => intro counter; exact ⟨rfl, rfl, rfl⟩
  | cons x rest ih =>
    intro counter
    cases hx : extract_image x with
    | none =>
      have h := ih counter
      simp only [extract_page_images, hx, List.filter_cons, Option.isSome_none,
        Bool.false_eq_true, if_false]
      exact h
    | some e =>
      have h := ih (counter + 1)
      simp only [extract_page_images, hx, List.filter_cons, Option.isSome_some,
        if_true, List.map_cons, List.length_cons, Option.getD_some]
      exact ⟨by rw [h.1], by rw [h.2.1], by rw [h.2.2]⟩

/-! ### Claim C5: per-line span merging -/

theorem foldl_min_spec (x : ℚ) (xs : List ℚ) :
    xs.foldl min x ∈ x :: xs ∧ ∀ y ∈ x :: xs, xs.foldl min x ≤ y := by
  induction xs generalizing x with
  | nil => simp
  | cons a as ih =>
    simp only [List.foldl_cons]
    obtain ⟨hmem, hle⟩ := ih (min x a)
    constructor
    · rw [List.mem_cons] at hmem
      rcases hmem with h1 | h1
      · rcases min_choice x a with h2 | h2
        · rw [h1, h2]
          exact List.mem_cons_self _ _
        · rw [h1, h2]
          exact List.mem_cons_of_mem _ (List.mem_cons_self _ _)
      · exact List.mem_cons_of_mem _ (List.mem_cons_of_mem _ h1)
    · intro y hy
      rw [List.mem_cons] at hy
      rcases hy with rfl | hy
      · exact le_trans (hle _ (List.mem_cons_self _ _)) (min_le_left _ _)
      · rw [List.mem_cons] at hy
        rcases hy with rfl | hy
        · exact le_trans (hle _ (List.mem_cons_self _ _)) (min_le_right _ _)
        · exact hle _ (List.mem_cons_of_mem _ hy)

theorem foldl_max_spec (x : ℚ) (xs : List ℚ) :
    xs.foldl max x ∈ x :: xs ∧ ∀ y ∈ x :: xs, y ≤ xs.foldl max x := by
  induction xs generalizing x with
  | nil => simp
  | cons a as ih =>
    simp only [List.foldl_cons]
    obtain ⟨hmem, hle⟩ := ih (max x a)
    constructor
    · rw [List.mem_cons] at hmem
      rcases hmem with h1 | h1
      · rcases max_choice x a with h2 | h2
        · rw [h1, h2]
          exact List.mem_cons_self _ _
        · rw [h1, h2]
          exact List.mem_cons_of_mem _ (List.mem_cons_self _ _)
      · exact List.mem_cons_of_mem _ (List.mem_cons_of_mem _ h1)
    · intro y hy
      rw [List.mem_cons] at hy
      rcases hy with rfl | hy
      · exact le_trans (le_max_left _ _) (hle _ (List.mem_cons_self _ _))
      · rw [List.mem_cons] at hy
        rcases hy with rfl | hy
        · exact le_trans (le_max_right _ _) (hle _ (List.mem_cons_self _ _))
        · exact hle _ (List.mem_cons_of_mem _ hy)

theorem minList_spec (l : List ℚ) (h : l ≠ []) :
    minList l ∈ l ∧ ∀ y ∈ l, minList l ≤ y := by
  cases l with
  | nil => exact absurd rfl h
  | cons x xs => exact foldl_min_spec x xs

theorem maxList_spec (l : List ℚ) (h : l ≠ []) :
    maxList l ∈ l ∧ ∀ y ∈ l, y ≤ maxList l := by
  cases l with
  | nil => exact absurd rfl h
  | cons x xs => exact foldl_max_spec x xs

theorem dropWhile_forall_iff (p : Char → Bool) (l : List Char) :
    (∀ c ∈ l.dropWhile p, p c) ↔ ∀ c ∈ l, p c := by
  constructor
  · intro h c hc
    have hsplit := List.takeWhile_append_dropWhile p l
    rw [← hsplit, List.mem_append] at hc
    rcases hc with hc | hc
    · exact List.mem_takeWhile_imp hc
    · exact h c hc
  · intro h c hc
    exact h c ((List.dropWhile_sublist p).subset hc)

theorem stripList_eq_nil_iff (l : List Char) :
    stripList l = [] ↔ ∀ c ∈ l, isPyWs c := by
  unfold stripList
  rw [List.reverse_eq_nil_iff, List.dropWhile_eq_nil_iff]
  constructor
  · intro h
    rw [← dropWhile_forall_iff isPyWs l]
    intro c hc
    exact h c (List.mem_reverse.mpr hc)
  · intro h c hc
    exact (dropWhile_forall_iff isPyWs l).mpr h c (List.mem_reverse.mp hc)

theorem string_mk_eq_empty_iff (l : List Char) : String.mk l = "" ↔ l = [] := by
  constructor
  · intro h
    have := congrArg String.data h
    simpa using this
  · intro h
    rw [h]

theorem pyStrip_eq_empty_iff (s : String) :
    pyStrip s = "" ↔ ∀ c ∈ s.data, isPyWs c := by
  unfold pyStrip
  rw [string_mk_eq_empty_iff, stripList_eq_nil_iff]

theorem joinWith_mem_data (sep : String) :
    ∀ (parts : List String), ∀ f ∈ parts, ∀ c ∈ f.data,
      c ∈ (joinWith sep parts).data := by
  intro parts
  induction parts with
  | nil =>
    intro f hf
    simp at hf
  | cons p rest ih =>
    intro f hf c hc
    cases rest with
    | nil =>
      rw [List.mem_cons] at hf
      rcases hf with rfl | hf
      · exact hc
      · simp at hf
    | cons q qs =>
      rw [List.mem_cons] at hf
      show c ∈ (p ++ sep ++ joinWith sep (q :: qs)).data
      rw [String.data_append, String.data_append]
      rcases hf with rfl | hf
      · exact List.mem_append_left _ (List.mem_append_left _ hc)
      · exact List.mem_append_right _ (ih f hf c hc)

theorem lineContent_eq_empty_iff (spans : List Span) :
    lineContent spans = "" ↔
      (spans.map Span.text).all (fun t => pyStrip t = "") := by
  unfold lineContent
  constructor
  · intro h
    rw [List.all_eq_true]
    intro t ht
    by_contra hne
    have htf : t ∈ (spans.map Span.text).filter (fun p => pyStrip p ≠ "") := by
      rw [List.mem_filter]
      exact ⟨ht, by simpa using hne⟩
    obtain ⟨c, hcmem, hcw⟩ : ∃ c ∈ t.data, ¬ isPyWs c := by
      by_contra hall
      push_neg at hall
      exact (by simpa using hne : ¬ pyStrip t = "")
        ((pyStrip_eq_empty_iff t).mpr (by simpa using hall))
    have hcj := joinWith_mem_data " " _ t htf c hcmem
    have := (pyStrip_eq_empty_iff _).mp h c hcj
    exact hcw this
  · intro h
    have hfe : (spans.map Span.text).filter (fun p => pyStrip p ≠ "") = [] := by
      rw [List.filter_eq_nil_iff]
      intro t ht
      have := List.all_eq_true.mp h t ht
      simpa using this
    rw [hfe]
    rfl

/-- C5: within a text block, each line's spans merge into one entry whose
bbox is the union (componentwise min of `x0`, `y0`, max of `x1`, `y1`,
bounding and attained over all the line's spans); `font_size`, `font` and
`color_guess` are taken from the first span of the line whose text is not
whitespace-only; and the line is discarded exactly when every span's text
is whitespace-only. -/
theorem extract_page_texts_line_merge (blocks : List Block) :
    (extract_page_texts blocks =
      (blocks.filter (fun b => b.type = 0)).flatMap
        (fun b => b.lines.filterMap lineOut)) ∧
    ∀ l : Line, l.spans ≠ [] →
      ((lineOut l = none ↔
        (l.spans.map Span.text).all (fun t => pyStrip t = "")) ∧
       ∀ t, lineOut l = some t →
         (t.bbox = ⟨round2 (minList (l.spans.map (fun s => s.bbox.x0))),
                    round2 (minList (l.spans.map (fun s => s.bbox.y0))),
                    round2 (maxList (l.spans.map (fun s => s.bbox.x1))),
                    round2 (maxList (l.spans.map (fun s => s.bbox.y1)))⟩ ∧
          (∀ s ∈ l.spans,
            minList (l.spans.map (fun s => s.bbox.x0)) ≤ s.bbox.x0 ∧
            minList (l.spans.map (fun s => s.bbox.y0)) ≤ s.bbox.y0 ∧
            s.bbox.x1 ≤ maxList (l.spans.map (fun s => s.bbox.x1)) ∧
            s.bbox.y1 ≤ maxList (l.spans.map (fun s => s.bbox.y1))) ∧
          (∃ s1 ∈ l.spans,
            minList (l.spans.map (fun s => s.bbox.x0)) = s1.bbox.x0) ∧
          (∃ s2 ∈ l.spans,
            maxList (l.spans.map (fun s => s.bbox.x1)) = s2.bbox.x1) ∧
          (∀ sp, l.spans.find? (fun s => pyStrip s.text ≠ "") = some sp →
            t.font_size = round2 sp.size ∧ t.font = sp.font ∧
            t.color_guess = color_guess_of sp.color) ∧
          t.content = lineContent l.spans ∧ t.content ≠ "")) := by
  refine ⟨rfl, ?_⟩
  intro l hspans
  constructor
  · have hnone : (lineOut l = none) ↔ lineContent l.spans = "" := by
      unfold lineOut
      rw [if_neg hspans]
      by_cases hc : lineContent l.spans = ""
      · simp [hc]
      · simp [hc]
    rw [hnone, lineContent_eq_empty_iff]
  · intro t ht
    unfold lineOut at ht
    rw [if_neg hspans] at ht
    by_cases hc : lineContent l.spans = ""
    · rw [if_pos hc] at ht
      simp at ht
    · rw [if_neg hc] at ht
      dsimp only at ht
      injection ht with ht
      subst ht
      have hx0 := minList_spec (l.spans.map (fun s => s.bbox.x0)) (by simp [hspans])
      have hy0 := minList_spec (l.spans.map (fun s => s.bbox.y0)) (by simp [hspans])
      have hx1 := maxList_spec (l.spans.map (fun s => s.bbox.x1)) (by simp [hspans])
      have hy1 := maxList_spec (l.spans.map (fun s => s.bbox.y1)) (by simp [hspans])
      refine ⟨rfl, ?_, ?_, ?_, ?_, rfl, hc⟩
      · intro s hs
        exact ⟨hx0.2 _ (List.mem_map_of_mem _ hs),
          hy0.2 _ (List.mem_map_of_mem _ hs),
          hx1.2 _ (List.mem_map_of_mem _ hs),
          hy1.2 _ (List.mem_map_of_mem _ hs)⟩
      · obtain ⟨s1, hs1, he⟩ := List.mem_map.mp hx0.1
        exact ⟨s1, hs1, he.symm⟩
      · obtain ⟨s2, hs2, he⟩ := List.mem_map.mp hx1.1
        exact ⟨s2, hs2, he.symm⟩
      · intro sp hsp
        have hps : primarySpan l.spans = sp := by
          unfold primarySpan
          rw [hsp]
        refine ⟨?_, ?_, ?_⟩
        · show round2 (primarySpan l.spans).size = round2 sp.size
          rw [hps]
        · show (primarySpan l.spans).font = sp.font
          rw [hps]
        · show color_guess_of (primarySpan l.spans).color = color_guess_of sp.color
          rw [hps]

/-- Witness for C5 at a concrete input: a line of a whitespace-only span
followed by a visible span keeps the second span's attributes; a line of
only the whitespace span is discarded. -/
theorem extract_page_texts_line_merge_witness :
    (⟨[wsSpan, hiSpan]⟩ : Line).spans ≠ [] ∧
    lineOut ⟨[wsSpan]⟩ = none ∧
    ∀ t, lineOut ⟨[wsSpan, hiSpan]⟩ = some t →
      t.font_size = 12 ∧ t.color_guess = "#00ff00" := by
  refine ⟨by simp [wsSpan, hiSpan], ?_, ?_⟩
  · have h1 := (extract_page_texts_line_merge []).2 ⟨[wsSpan]⟩ (by simp [wsSpan])
    refine h1.1.mpr ?_
    with_unfolding_all decide
  · intro t ht
    have h := (extract_page_texts_line_merge []).2 ⟨[wsSpan, hiSpan]⟩
      (by simp [wsSpan])
    have h2 := h.2 t ht
    have hws : pyStrip wsSpan.text = "" := by with_unfolding_all decide
    have hhi : pyStrip hiSpan.text ≠ "" := by with_unfolding_all decide
    have hfind : ((⟨[wsSpan, hiSpan]⟩ : Line).spans.find?
        (fun s => pyStrip s.text ≠ "")) = some hiSpan := by
      show List.find? _ [wsSpan, hiSpan] = some hiSpan
      rw [List.find?_cons_of_neg _ (by simp [hws]),
        List.find?_cons_of_pos _ (by simp [hhi])]
    have h3 := h2.2.2.2.2.1 hiSpan hfind
    refine ⟨?_, ?_⟩
    · rw [h3.1]
      with_unfolding_all decide
    · rw [h3.2.2]
      with_unfolding_all decide

/-! ### Claim C7: asset URL resolution from disk vs. network -/

/-- Counterexample to C7 as stated: a URL on a foreign host that merely
contains the substring `/assets?` (it does not start with the configured
base URL followed by `/assets`) is still resolved by a direct disk read by
both resolvers when the referenced file exists — it does not fall back to a
network fetch. -/
theorem asset_resolution_counterexample :
    pyStartsWith "http://o/assets?process_id=p&asset_path=a.png"
      ("http://m" ++ "/assets") = false ∧
    load_image (fun p => p = "/tmp/outputs/p/a.png")
      "http://o/assets?process_id=p&asset_path=a.png" "http://m"
      = FetchSource.disk "/tmp/outputs/p/a.png" ∧
    asset_fetcher (fun p => p = "/tmp/outputs/p/a.png") "http://m"
      "http://o/assets?process_id=p&asset_path=a.png"
      = FetchSource.disk "/tmp/outputs/p/a.png" := by
  refine ⟨?_, ?_, ?_⟩ <;>
    simp +decide [load_image, asset_fetcher, pyStartsWith, rstripSlash,
      urlQuery, firstQueryParam, parse_qs, unquotePlus, unquotePlusList,
      basename, pathJoin, assetFilePath, OUTPUT_FOLDER, pyEndsWith,
      containsStr, hasSubstr, splitOnChar, hasChar, afterFirstChar,
      beforeFirstChar]

/-- C7 (amended): both resolvers read an asset directly from local storage
(never from the network) exactly when the URL either starts with the
configured base followed by `/assets` (with a nonempty base, for the diff
loader) or merely contains the substring `/assets?` anywhere, and both the
`process_id` and `asset_path` query parameters are nonempty, and the
referenced file exists; in every other case (and for a missing file or
missing parameter) they fall back to a network fetch — except `data:`
sources, which the diff loader decodes inline. -/
theorem asset_resolution_spec (isFile : String → Bool) (url base : String) :
    (∀ p : String, load_image isFile url base = FetchSource.disk p ↔
      (¬ pyStartsWith url "data:" ∧
       ((rstripSlash base ≠ "" ∧
          pyStartsWith url (rstripSlash base ++ "/assets")) ∨
         containsStr "/assets?" url) ∧
       firstQueryParam (urlQuery url) "process_id" ≠ "" ∧
       firstQueryParam (urlQuery url) "asset_path" ≠ "" ∧
       isFile (assetFilePath (firstQueryParam (urlQuery url) "process_id")
         (firstQueryParam (urlQuery url) "asset_path")) ∧
       p = assetFilePath (firstQueryParam (urlQuery url) "process_id")
         (firstQueryParam (urlQuery url) "asset_path"))) ∧
    (∀ p : String, asset_fetcher isFile base url = FetchSource.disk p ↔
      ((pyStartsWith url (rstripSlash base ++ "/assets") ∨
         containsStr "/assets?" url) ∧
       firstQueryParam (urlQuery url) "process_id" ≠ "" ∧
       firstQueryParam (urlQuery url) "asset_path" ≠ "" ∧
       isFile (assetFilePath (firstQueryParam (urlQuery url) "process_id")
         (firstQueryParam (urlQuery url) "asset_path")) ∧
       p = assetFilePath (firstQueryParam (urlQuery url) "process_id")
         (firstQueryParam (urlQuery url) "asset_path"))) ∧
    (¬ pyStartsWith url "data:" →
      ¬ ((rstripSlash base ≠ "" ∧
          pyStartsWith url (rstripSlash base ++ "/assets")) ∨
         containsStr "/assets?" url) →
      load_image isFile url base = FetchSource.network url) ∧
    (¬ (pyStartsWith url (rstripSlash base ++ "/assets") ∨
        containsStr "/assets?" url) →
      asset_fetcher isFile base url = FetchSource.network url) := by
  refine ⟨?_, ?_, ?_, ?_⟩
  · intro p
    simp only [load_image]
    by_cases h0 : pyStartsWith url "data:"
    · rw [if_pos h0]
      simp [h0]
    · rw [if_neg h0]
      by_cases h1 : (rstripSlash base ≠ "" ∧
          pyStartsWith url (rstripSlash base ++ "/assets")) ∨
          containsStr "/assets?" url
      · rw [if_pos h1]
        by_cases h2 : firstQueryParam (urlQuery url) "process_id" ≠ "" ∧
            firstQueryParam (urlQuery url) "asset_path" ≠ ""
        · rw [if_pos h2]
          by_cases h3 : isFile
              (assetFilePath (firstQueryParam (urlQuery url) "process_id")
                (firstQueryParam (urlQuery url) "asset_path"))
          · rw [if_pos h3]
            constructor
            · intro he
              injection he with he
              exact ⟨h0, h1, h2.1, h2.2, h3, he.symm⟩
            · rintro ⟨-, -, -, -, -, rfl⟩
              rfl
          · rw [if_neg h3]
            constructor
            · intro he
              simp at he
            · rintro ⟨-, -, -, -, h3', -⟩
              exact absurd h3' h3
        · rw [if_neg h2]
          constructor
          · intro he
            simp at he
          · rintro ⟨-, -, hpid, hap, -, -⟩
            exact absurd ⟨hpid, hap⟩ h2
      · rw [if_neg h1]
        constructor
        · intro he
          simp at he
        · rintro ⟨-, h1', -, -, -, -⟩
          exact absurd h1' h1
  · intro p
    simp only [asset_fetcher]
    by_cases h1 : pyStartsWith url (rstripSlash base ++ "/assets")
        || containsStr "/assets?" url
    · rw [if_pos h1]
      by_cases h2 : firstQueryParam (urlQuery url) "process_id" ≠ "" ∧
          firstQueryParam (urlQuery url) "asset_path" ≠ ""
      · rw [if_pos h2]
        by_cases h3 : isFile
            (assetFilePath (firstQueryParam (urlQuery url) "process_id")
              (firstQueryParam (urlQuery url) "asset_path"))
        · rw [if_pos h3]
          constructor
          · intro he
            injection he with he
            exact ⟨by simpa using h1, h2.1, h2.2, h3, he.symm⟩
          · rintro ⟨-, -, -, -, rfl⟩
            rfl
        · rw [if_neg h3]
          constructor
          · intro he
            simp at he
          · rintro ⟨-, -, -, h3', -⟩
            exact absurd h3' h3
      · rw [if_neg h2]
        constructor
        · intro he
          simp at he
        · rintro ⟨-, hpid, hap, -, -⟩
          exact absurd ⟨hpid, hap⟩ h2
    · rw [if_neg h1]
      constructor
      · intro he
        simp at he
      · rintro ⟨h1', -, -, -, -⟩
        refine absurd ?_ h1
        simpa using h1'
  · intro hd hc
    simp only [load_image]
    rw [if_neg hd, if_neg hc]
  · intro hc
    simp only [asset_fetcher]
    rw [if_neg (by simpa using hc)]

/-- Witness for C7 (amended) at a concrete input: a scheme-matching URL
whose file exists on disk is resolved by a direct disk read. -/
theorem asset_resolution_spec_witness :
    load_image (fun p => p = "/tmp/outputs/pid1/img.png")
      "http://m/assets?process_id=pid1&asset_path=img.png" "http://m/"
      = FetchSource.disk "/tmp/outputs/pid1/img.png" := by
  apply ((asset_resolution_spec (fun p => p = "/tmp/outputs/pid1/img.png")
    "http://m/assets?process_id=pid1&asset_path=img.png" "http://m/").1
    "/tmp/outputs/pid1/img.png").mpr
  refine ⟨?_, Or.inl ⟨?_, ?_⟩, ?_, ?_, ?_, ?_⟩ <;>
    simp +decide [pyStartsWith, rstripSlash, urlQuery, firstQueryParam,
      parse_qs, unquotePlus, unquotePlusList, basename, pathJoin,
      assetFilePath, OUTPUT_FOLDER, pyEndsWith, containsStr, hasSubstr,
      splitOnChar, hasChar, afterFirstChar, beforeFirstChar]

end PdfToHtml
